import Mathlib

/-!
Verification of the raytracer rendering pipeline against its specification.

The development shallowly embeds the Rust sources: `f64` scalars are modelled
by `ℚ` (exact rational arithmetic; `f64` square roots and powers are modelled
by rational stand-ins that agree with the float functions on the exact inputs
arising in the concrete scenarios), machine indices by `Nat`, fallible
operations by `Option`/explicit result types, and `panic` by a dedicated
result constructor. Every definition is translated from the corresponding
source item (file and symbol named in its doc comment); the few collaborators
that are referenced by the sources but absent from them are modelled from the
specification and marked `Modelled from the spec:`.
-/

namespace RayTracer

/-- Integer square root helper: largest `k ≤ c` with `k * k ≤ n`, found by
counting down from the candidate bound `c`. Used by `ratSqrt`. -/
def isqrtFrom (n : Nat) : Nat → Nat
  | 0 => 0
  | c + 1 => if (c + 1) * (c + 1) ≤ n then c + 1 else isqrtFrom n c

/-- Integer square root (exact on perfect squares). -/
def isqrt (n : Nat) : Nat := isqrtFrom n n

/-- Rational stand-in for `f64::sqrt`: exact whenever numerator and
denominator are perfect squares (all square roots taken in the concrete
scenarios below are of this form); an under-approximation otherwise, which no
theorem in this file depends on. `f64::sqrt` of a negative number is NaN; the
rational model returns 0 there, and no theorem depends on that value. -/
def ratSqrt (q : ℚ) : ℚ :=
  if q ≤ 0 then 0 else (isqrt q.num.toNat : ℚ) / (isqrt q.den : ℚ)

/-- Rational stand-in for `f64::powf`: exact for non-negative integer
exponents, which are the only exponents the embedded code applies it to
(`powf(2.0)` in magnitudes and quadratics, `powf(shininess)` with the preset
shininess 200). -/
def ratPowf (x y : ℚ) : ℚ :=
  if y.den = 1 ∧ 0 ≤ y.num then x ^ y.num.toNat else 0

/-- Model of `f64::round`: round half away from zero, yielding an integer. -/
def ratRound (q : ℚ) : ℤ :=
  if 0 ≤ q then ⌊q + 1 / 2⌋ else -⌊-q + 1 / 2⌋

/-! ### Collections: vectors, points, colours (src/src/collections) -/

/-- Vector (w = 0 homogeneous tuple), `src/src/collections/vector.rs`. -/
structure Vector where
  x : ℚ
  y : ℚ
  z : ℚ
  deriving DecidableEq, Repr

/-- Point (w = 1 homogeneous tuple), `src/src/collections/point.rs`. -/
structure Point where
  x : ℚ
  y : ℚ
  z : ℚ
  deriving DecidableEq, Repr

/-- Colour (RGB triple), `src/src/collections/colour.rs`. -/
structure Colour where
  red : ℚ
  green : ℚ
  blue : ℚ
  deriving DecidableEq, Repr

instance : Add Colour :=
  ⟨fun a b => ⟨a.red + b.red, a.green + b.green, a.blue + b.blue⟩⟩

instance : Sub Colour :=
  ⟨fun a b => ⟨a.red - b.red, a.green - b.green, a.blue - b.blue⟩⟩

/-- Hadamard product of colours (`impl Mul<Colour> for Colour`). -/
instance : Mul Colour :=
  ⟨fun a b => ⟨a.red * b.red, a.green * b.green, a.blue * b.blue⟩⟩

/-- Scalar multiple of a colour (`impl Mul<f64> for Colour`). -/
instance : HMul Colour ℚ Colour :=
  ⟨fun c s => ⟨s * c.red, s * c.green, s * c.blue⟩⟩

/-- Scalar times colour (`impl Mul<Colour> for f64`). -/
instance : HMul ℚ Colour Colour :=
  ⟨fun s c => ⟨s * c.red, s * c.green, s * c.blue⟩⟩

instance : Neg Vector := ⟨fun v => ⟨-v.x, -v.y, -v.z⟩⟩

instance : Add Vector := ⟨fun a b => ⟨a.x + b.x, a.y + b.y, a.z + b.z⟩⟩

instance : Sub Vector := ⟨fun a b => ⟨a.x - b.x, a.y - b.y, a.z - b.z⟩⟩

/-- Scalar multiple of a vector. -/
instance : HMul Vector ℚ Vector := ⟨fun v s => ⟨s * v.x, s * v.y, s * v.z⟩⟩

/-- Scalar times vector. -/
instance : HMul ℚ Vector Vector := ⟨fun s v => ⟨s * v.x, s * v.y, s * v.z⟩⟩

/-- Point minus point yields a vector. -/
instance : HSub Point Point Vector :=
  ⟨fun a b => ⟨a.x - b.x, a.y - b.y, a.z - b.z⟩⟩

/-- Point plus vector yields a point. -/
instance : HAdd Point Vector Point :=
  ⟨fun p v => ⟨p.x + v.x, p.y + v.y, p.z + v.z⟩⟩

@[simp] lemma colour_add_def (a b : Colour) :
    a + b = ⟨a.red + b.red, a.green + b.green, a.blue + b.blue⟩ := rfl

@[simp] lemma colour_sub_def (a b : Colour) :
    a - b = ⟨a.red - b.red, a.green - b.green, a.blue - b.blue⟩ := rfl

@[simp] lemma colour_mul_def (a b : Colour) :
    a * b = ⟨a.red * b.red, a.green * b.green, a.blue * b.blue⟩ := rfl

@[simp] lemma colour_smul_right_def (c : Colour) (s : ℚ) :
    c * s = ⟨s * c.red, s * c.green, s * c.blue⟩ := rfl

@[simp] lemma colour_smul_left_def (s : ℚ) (c : Colour) :
    s * c = ⟨s * c.red, s * c.green, s * c.blue⟩ := rfl

@[simp] lemma vector_neg_def (v : Vector) : -v = ⟨-v.x, -v.y, -v.z⟩ := rfl

@[simp] lemma vector_add_def (a b : Vector) :
    a + b = ⟨a.x + b.x, a.y + b.y, a.z + b.z⟩ := rfl

@[simp] lemma vector_sub_def (a b : Vector) :
    a - b = ⟨a.x - b.x, a.y - b.y, a.z - b.z⟩ := rfl

@[simp] lemma vector_smul_right_def (v : Vector) (s : ℚ) :
    v * s = ⟨s * v.x, s * v.y, s * v.z⟩ := rfl

@[simp] lemma vector_smul_left_def (s : ℚ) (v : Vector) :
    s * v = ⟨s * v.x, s * v.y, s * v.z⟩ := rfl

@[simp] lemma point_sub_def (a b : Point) :
    a - b = (⟨a.x - b.x, a.y - b.y, a.z - b.z⟩ : Vector) := rfl

@[simp] lemma point_add_vector_def (p : Point) (v : Vector) :
    p + v = (⟨p.x + v.x, p.y + v.y, p.z + v.z⟩ : Point) := rfl

namespace Vector

/-- Vector magnitude, `Vector::magnitude` (`src/src/collections/vector.rs`):
`(x.powf(2) + y.powf(2) + z.powf(2)).sqrt()`. -/
def magnitude (v : Vector) : ℚ :=
  ratSqrt (ratPowf v.x 2 + ratPowf v.y 2 + ratPowf v.z 2)

/-- Vector normalisation, `Vector::normalise`. -/
def normalise (v : Vector) : Vector :=
  let m := v.magnitude
  ⟨v.x / m, v.y / m, v.z / m⟩

/-- Dot product, `Vector::dot`. -/
def dot (a b : Vector) : ℚ := a.x * b.x + a.y * b.y + a.z * b.z

/-- Reflection about a normal, `Vector::reflect`:
`self - normal * 2.0 * self.dot(normal)`. -/
def reflect (v normal : Vector) : Vector := v - normal * (2 * v.dot normal)

end Vector

/-- Ray, `src/src/objects/ray.rs` / traversal code: an origin and a
direction. -/
structure Ray where
  origin : Point
  direction : Vector
  deriving DecidableEq, Repr

/-- Position along a ray, `Ray::position`: `origin + t * direction`. -/
def Ray.position (r : Ray) (t : ℚ) : Point := r.origin + t * r.direction

/-! ### Materials, patterns and Phong shading (C5) -/

/-- Material, `src/src/objects/material.rs`. The polymorphic `pattern` field
(`Box<dyn Pattern>`) is embedded as its capability `colour_at`, a function
from the target point to a colour; a `Solid` pattern is the constant
function. -/
structure Material where
  pattern : Point → Colour
  ambient : ℚ
  diffuse : ℚ
  specular : ℚ
  shininess : ℚ
  reflectance : ℚ
  transparency : ℚ
  refractive_index : ℚ

/-- Preset material, `Material::preset` (`src/src/objects/material.rs`):
solid white pattern, ambient 0.1, diffuse 0.9, specular 0.9, shininess 200,
reflectance 0, transparency 0, refractive index 1. -/
def Material.preset : Material where
  pattern := fun _ => ⟨1, 1, 1⟩
  ambient := 1 / 10
  diffuse := 9 / 10
  specular := 9 / 10
  shininess := 200
  reflectance := 0
  transparency := 0
  refractive_index := 1

/-- Point light, `src/src/objects/light.rs`. -/
structure Light where
  position : Point
  intensity : Colour

/-- Phong shading, `Light::shade_phong` (`src/src/objects/light.rs`, lines
19-52), translated clause by clause: effective colour, light vector, ambient
term, early return when shadowed, then diffuse and specular terms guarded by
`light_dot_normal` and `reflect_dot_eye`. -/
def Light.shade_phong (light : Light) (material : Material) (target : Point)
    (eyev normal : Vector) (shadowed : Bool) : Colour :=
  let effective_colour := material.pattern target * light.intensity
  let lightv := (light.position - target).normalise
  let ambient := effective_colour * material.ambient
  if shadowed then ambient
  else
    let light_dot_normal := lightv.dot normal
    let ds : Colour × Colour :=
      if light_dot_normal < 0 then (⟨0, 0, 0⟩, ⟨0, 0, 0⟩)
      else
        let diffuse := effective_colour * material.diffuse * light_dot_normal
        let reflectv := (-lightv).reflect normal
        let reflect_dot_eye := reflectv.dot eyev
        let specular :=
          if reflect_dot_eye ≤ 0 then (⟨0, 0, 0⟩ : Colour)
          else
            let factor := ratPowf reflect_dot_eye material.shininess
            light.intensity * material.specular * factor
        (diffuse, specular)
    ambient + ds.1 + ds.2

lemma isqrt_hundred : isqrt 100 = 10 := by decide

lemma isqrt_one : isqrt 1 = 1 := by decide

lemma ratSqrt_hundred : ratSqrt 100 = 10 := by
  have h1 : ((100 : ℚ)).num.toNat = 100 := rfl
  have h2 : ((100 : ℚ)).den = 1 := rfl
  rw [ratSqrt, if_neg (by norm_num), h1, h2, isqrt_hundred, isqrt_one]
  norm_num

lemma ratPowf_two (x : ℚ) : ratPowf x 2 = x ^ 2 := by
  rw [ratPowf, if_pos ⟨rfl, by rw [Rat.num_ofNat]; decide⟩]
  rfl

lemma ratPowf_one_left (y : ℚ) : ratPowf 1 y = if y.den = 1 ∧ 0 ≤ y.num then 1 else 0 := by
  simp [ratPowf]

/-- C5. For every material, light, target point, eye vector, and normal
vector, `shade_phong` with `shadowed = true` returns exactly the ambient term
(effective colour times `material.ambient`) with no diffuse or specular
contribution; and in the concrete unshadowed case with the preset material,
eye `(0,0,-1)`, normal `(0,0,-1)` and a white point light at `(0,0,-10)`, it
returns the colour `(1.9, 1.9, 1.9)`. -/
theorem shade_phong_shadowed_ambient_and_preset_value :
    (∀ (light : Light) (material : Material) (target : Point)
        (eyev normal : Vector),
        light.shade_phong material target eyev normal true =
          (material.pattern target * light.intensity) * material.ambient) ∧
      Light.shade_phong ⟨⟨0, 0, -10⟩, ⟨1, 1, 1⟩⟩ Material.preset ⟨0, 0, 0⟩
          ⟨0, 0, -1⟩ ⟨0, 0, -1⟩ false =
        ⟨19 / 10, 19 / 10, 19 / 10⟩ := by
  constructor
  · intro light material target eyev normal
    simp [Light.shade_phong]
  · show Light.shade_phong _ _ _ _ _ false = _
    have hpow : ratPowf 1 ((200 : ℚ)) = 1 := by
      rw [ratPowf_one_left,
        if_pos ⟨rfl, by rw [Rat.num_ofNat]; decide⟩]
    rw [Light.shade_phong]
    simp only [Material.preset, point_sub_def, Vector.normalise,
      Vector.magnitude, Vector.dot, Vector.reflect, vector_neg_def,
      vector_smul_right_def, vector_sub_def, colour_mul_def,
      colour_smul_right_def, colour_smul_left_def, colour_add_def,
      ratPowf_two]
    norm_num [ratSqrt_hundred, hpow]

/-! ### Hit register and refraction boundary (C1, C2)
(src/src/objects/intersections.rs) -/

/-- Reference to a `dyn PrimitiveShape` as seen by the hit register. The
register code only inspects a shape through `material().refractive_index`
and through `==`. `oid` models the reference identity of the shape (its
address); `dbg` models the `format!("{:?}", shape)` Debug string that the
`PartialEq for dyn PrimitiveShape` implementation
(`src/src/objects/shapes/shape.rs`, lines 59-63) compares: two distinct
shapes are `==` exactly when their Debug representations coincide, which for
structurally equal copies they do even though the references differ. -/
structure PrimShapeRef where
  oid : Nat
  dbg : Nat
  refractive_index : ℚ
  deriving DecidableEq, Repr

/-- Shape comparison used by the register, `PartialEq for dyn PrimitiveShape`
(`src/src/objects/shapes/shape.rs`): equality of Debug representations. -/
def primShapeEq (a b : PrimShapeRef) : Bool := a.dbg == b.dbg

/-- Raw intersection, `Intersect<'ray, S, Raw>`
(`src/src/objects/intersections.rs`): a `t` value, the intersected object,
optional `uv` coordinates and the transform-stack snapshot (stack frames
abstracted as identifiers). -/
structure Intersect where
  t : ℚ
  object : PrimShapeRef
  uv_coordinates : Option (ℚ × ℚ)
  transform_stack : List Nat
  deriving DecidableEq, Repr

instance : Inhabited PrimShapeRef := ⟨⟨0, 0, 1⟩⟩

instance : Inhabited Intersect := ⟨⟨0, default, none, []⟩⟩

/-- Computed intersection, `Intersect<'ray, S, Computed>`: retains the data
of the raw intersection plus the refraction boundary. The purely geometric
computations of `Intersect::compute` (target, eye vector, normal, over/under
points, reflected ray) are not inspected by any claim settled here and are
omitted from this record. -/
structure ComputedIntersect where
  t : ℚ
  object : PrimShapeRef
  uv_coordinates : Option (ℚ × ℚ)
  transform_stack : List Nat
  refraction_boundary : ℚ × ℚ
  deriving DecidableEq, Repr

/-- Comparator used by `HitRegister::sort_intersections_by_t`:
`a.t().partial_cmp(&b.t()).unwrap()`, total on the real (non-NaN) `t`
values the claims quantify over. -/
def tLe (a b : Intersect) : Prop := a.t ≤ b.t

instance : DecidableRel tLe := fun a b => inferInstanceAs (Decidable (a.t ≤ b.t))

instance : IsTotal Intersect tLe := ⟨fun a b => le_total a.t b.t⟩

instance : IsTrans Intersect tLe := ⟨fun _ _ _ hab hbc => le_trans hab hbc⟩

/-- Sorting of the register, `HitRegister::sort_intersections_by_t`
(`src/src/objects/intersections.rs`, lines 315-317): a stable sort by `t`
ascending (Rust `sort_by` is a stable sort; insertion sort is the stable
sort of the embedding). -/
def sort_intersections_by_t (l : List Intersect) : List Intersect :=
  l.insertionSort tLe

/-- Container update, `HitRegister::update_containers`
(`src/src/objects/intersections.rs`, lines 347-364): if an object comparing
`==` to the current intersection's object is present, remove it (the ray is
exiting); otherwise append the current object (the ray is entering). -/
def update_containers (in_objects : List PrimShapeRef)
    (current : PrimShapeRef) : List PrimShapeRef :=
  match in_objects.findIdx? (fun o => primShapeEq o current) with
  | some idx => in_objects.eraseIdx idx
  | none => in_objects ++ [current]

/-- Refractive index of the innermost containing object: `in_objects.last()`
with 1.0 when the list is empty. -/
def lastRefractiveIndex (in_objects : List PrimShapeRef) : ℚ :=
  match in_objects.getLast? with
  | some o => o.refractive_index
  | none => 1

/-- Refraction boundary walk, `HitRegister::compute_refraction_boundary`
(`src/src/objects/intersections.rs`, lines 319-345): walk the sorted
intersections accumulating `in_objects`; at the visible-hit index read `n1`,
update the containers with the hit's object, read `n2`. The source function
starts from an empty `in_objects` and asserts that the index is in range
(the empty-list clause models its unreachable trailing code). -/
def compute_refraction_boundary :
    List Intersect → Nat → List PrimShapeRef → ℚ × ℚ
  | [], _, _ => (1, 1)
  | itx :: _, 0, in_objects =>
    (lastRefractiveIndex in_objects,
      lastRefractiveIndex (update_containers in_objects itx.object))
  | itx :: rest, idx + 1, in_objects =>
    compute_refraction_boundary rest idx (update_containers in_objects itx.object)

/-- Split of the sorted register at the first intersection with `t ≥ 0`,
modelling `self.0.iter().position(|itx| itx.t >= 0.0)` together with the
retrieval of that element in `HitRegister::finalise_hit`: returns the
negative-`t` prefix, the visible hit and the remainder. -/
def splitAtHit : List Intersect →
    Option (List Intersect × Intersect × List Intersect)
  | [] => none
  | itx :: rest =>
    if 0 ≤ itx.t then some ([], itx, rest)
    else (splitAtHit rest).map (fun pr => (itx :: pr.1, pr.2.1, pr.2.2))

/-- Finalisation, `HitRegister::finalise_hit`
(`src/src/objects/intersections.rs`, lines 304-313): sort by `t` ascending,
find the first intersection with `t ≥ 0`, compute the refraction boundary at
its index, and return the computed intersection; `none` when every `t` is
negative. -/
def finalise_hit (reg : List Intersect) : Option ComputedIntersect :=
  match splitAtHit (sort_intersections_by_t reg) with
  | none => none
  | some (neg, hit, _) =>
    some ⟨hit.t, hit.object, hit.uv_coordinates, hit.transform_stack,
      compute_refraction_boundary (sort_intersections_by_t reg) neg.length []⟩

lemma splitAtHit_eq_none :
    ∀ {l : List Intersect}, splitAtHit l = none → ∀ x ∈ l, x.t < 0 := by
  intro l
  induction l with
  | nil => intro _ x hx; cases hx
  | cons a rest ih =>
    intro h x hx
    rw [splitAtHit] at h
    by_cases ha : 0 ≤ a.t
    · rw [if_pos ha] at h; cases h
    · rw [if_neg ha] at h
      rcases List.mem_cons.mp hx with rfl | hx
      · exact lt_of_not_le ha
      · cases hr : splitAtHit rest with
        | none => exact ih hr x hx
        | some pr => rw [hr, Option.map_some'] at h; cases h

lemma splitAtHit_eq_some :
    ∀ {l pre post : List Intersect} {hit : Intersect},
      splitAtHit l = some (pre, hit, post) →
      l = pre ++ hit :: post ∧ (∀ x ∈ pre, x.t < 0) ∧ 0 ≤ hit.t := by
  intro l
  induction l with
  | nil => intro _ _ _ h; cases h
  | cons a rest ih =>
    intro pre post hit h
    rw [splitAtHit] at h
    by_cases ha : 0 ≤ a.t
    · rw [if_pos ha] at h
      injection h with h
      cases h
      exact ⟨rfl, by intro x hx; simp at hx, ha⟩
    · rw [if_neg ha] at h
      cases hr : splitAtHit rest with
      | none => rw [hr] at h; cases h
      | some pr =>
        obtain ⟨p1, p2, p3⟩ := pr
        rw [hr, Option.map_some'] at h
        injection h with h
        cases h
        obtain ⟨e1, e2, e3⟩ := ih hr
        refine ⟨by rw [List.cons_append, ← e1], ?_, e3⟩
        intro x hx
        rcases List.mem_cons.mp hx with rfl | hx
        · exact lt_of_not_le ha
        · exact e2 x hx

/-- C1. `finalise_hit` sorts the register by `t` ascending and returns the
computed intersection of the first hit with `t ≥ 0`: the returned `t` is
non-negative, is the `t` of some raw intersection, and is the smallest
non-negative `t` among all raw intersections; `finalise_hit` returns `none`
exactly when every raw intersection has negative `t`. -/
theorem finalise_hit_returns_least_nonneg_t :
    ∀ reg : List Intersect,
      (∀ c, finalise_hit reg = some c →
        0 ≤ c.t ∧ (∃ h ∈ reg, h.t = c.t) ∧
          ∀ h ∈ reg, 0 ≤ h.t → c.t ≤ h.t) ∧
      (finalise_hit reg = none → ∀ h ∈ reg, h.t < 0) := by
  intro reg
  have hperm : (sort_intersections_by_t reg).Perm reg :=
    List.perm_insertionSort tLe reg
  have hsorted : List.Sorted tLe (sort_intersections_by_t reg) :=
    List.sorted_insertionSort tLe reg
  constructor
  · intro c hc
    cases hsplit : splitAtHit (sort_intersections_by_t reg) with
    | none => simp only [finalise_hit, hsplit] at hc; cases hc
    | some pr =>
      obtain ⟨pre, hit, post⟩ := pr
      simp only [finalise_hit, hsplit] at hc
      injection hc with hc
      have hct : c.t = hit.t := by rw [← hc]
      obtain ⟨hdecomp, hpre, hhit⟩ := splitAtHit_eq_some hsplit
      have hmem : hit ∈ sort_intersections_by_t reg := by
        rw [hdecomp]; exact List.mem_append_right _ (List.mem_cons_self _ _)
      refine ⟨hct ▸ hhit, ⟨hit, hperm.subset hmem, hct.symm⟩, ?_⟩
      intro x hx hxt
      have hxs : x ∈ sort_intersections_by_t reg := hperm.symm.subset hx
      rw [hdecomp] at hxs
      rcases List.mem_append.mp hxs with hxpre | hxrest
      · exact absurd hxt (not_le_of_lt (hpre x hxpre))
      · rcases List.mem_cons.mp hxrest with rfl | hxpost
        · exact le_of_eq hct
        · rw [hdecomp] at hsorted
          have hp := (List.pairwise_append.mp hsorted).2.1
          have hle := (List.pairwise_cons.mp hp).1 x hxpost
          rw [hct]
          exact hle
  · intro hnone x hx
    cases hsplit : splitAtHit (sort_intersections_by_t reg) with
    | none =>
      exact splitAtHit_eq_none hsplit x (hperm.symm.subset hx)
    | some pr =>
      obtain ⟨pre, hit, post⟩ := pr
      simp only [finalise_hit, hsplit] at hnone
      cases hnone

/-- Witness for C1 at the concrete register of the source test
`hit_register_finalises_hit` (`t` values −1, 2, 3): the finalised hit has
`t = 2`, which is non-negative and least among the non-negative `t`s. -/
theorem finalise_hit_returns_least_nonneg_t_witness :
    ∃ c, finalise_hit
        [⟨-1, ⟨0, 0, 1⟩, none, []⟩, ⟨2, ⟨0, 0, 1⟩, none, []⟩,
          ⟨3, ⟨0, 0, 1⟩, none, []⟩] = some c ∧
      0 ≤ c.t ∧
        (∃ h ∈ [⟨-1, ⟨0, 0, 1⟩, none, []⟩, ⟨2, ⟨0, 0, 1⟩, none, []⟩,
            (⟨3, ⟨0, 0, 1⟩, none, []⟩ : Intersect)], h.t = c.t) ∧
        ∀ h ∈ [⟨-1, ⟨0, 0, 1⟩, none, []⟩, ⟨2, ⟨0, 0, 1⟩, none, []⟩,
            (⟨3, ⟨0, 0, 1⟩, none, []⟩ : Intersect)], 0 ≤ h.t → c.t ≤ h.t := by
  have heval : finalise_hit
      [⟨-1, ⟨0, 0, 1⟩, none, []⟩, ⟨2, ⟨0, 0, 1⟩, none, []⟩,
        ⟨3, ⟨0, 0, 1⟩, none, []⟩] =
      some ⟨2, ⟨0, 0, 1⟩, none, [], (1, 1)⟩ := by decide
  exact ⟨_, heval,
    ((finalise_hit_returns_least_nonneg_t _).1 _ heval)⟩

/-! ### C2: the refraction boundary walk and the equality it uses -/

/-- Declarative reading of the refraction boundary walk: `in_objects` is the
fold of `update_containers` over the intersections strictly before the
visible-hit index; `n1` is the refractive index of its last element (1.0 if
empty); the hit's object is then removed if an object comparing `==` to it
is present, else appended; `n2` is the refractive index of the new last
element (1.0 if empty). -/
def refraction_boundary_foldl (hits : List Intersect) (idx : Nat) : ℚ × ℚ :=
  let in_objects := (hits.take idx).foldl
    (fun acc itx => update_containers acc itx.object) []
  (lastRefractiveIndex in_objects,
    lastRefractiveIndex
      (update_containers in_objects (hits.getD idx default).object))

/-- Container update as the claim C2 words it, membership decided by object
identity: the hit's object is removed only when that very reference is
present, so two distinct but structurally equal copies are tracked
separately. Stated from the claim for comparison with the source
translation `update_containers`, which compares Debug representations. -/
def update_containers_by_identity (in_objects : List PrimShapeRef)
    (current : PrimShapeRef) : List PrimShapeRef :=
  match in_objects.findIdx? (fun o => o.oid == current.oid) with
  | some idx => in_objects.eraseIdx idx
  | none => in_objects ++ [current]

/-- Refraction boundary as the claim C2 words it: the same walk but with
membership decided by object identity. -/
def refraction_boundary_by_identity (hits : List Intersect) (idx : Nat) :
    ℚ × ℚ :=
  let in_objects := (hits.take idx).foldl
    (fun acc itx => update_containers_by_identity acc itx.object) []
  (lastRefractiveIndex in_objects,
    lastRefractiveIndex
      (update_containers_by_identity in_objects (hits.getD idx default).object))

lemma compute_refraction_boundary_eq_foldl :
    ∀ (hits : List Intersect) (idx : Nat) (ins : List PrimShapeRef),
      idx < hits.length →
      compute_refraction_boundary hits idx ins =
        (lastRefractiveIndex ((hits.take idx).foldl
            (fun acc itx => update_containers acc itx.object) ins),
          lastRefractiveIndex
            (update_containers
              ((hits.take idx).foldl
                (fun acc itx => update_containers acc itx.object) ins)
              ((hits.getD idx default).object))) := by
  intro hits
  induction hits with
  | nil => intro idx ins h; cases h
  | cons a rest ih =>
    intro idx ins h
    cases idx with
    | zero => rfl
    | succ idx =>
      rw [compute_refraction_boundary]
      rw [List.take_succ_cons, List.foldl_cons, List.getD_cons_succ]
      exact ih idx (update_containers ins a.object) (Nat.lt_of_succ_lt_succ h)

/-- C2 (amended). For every sorted hit register and every in-range
visible-hit index, `compute_refraction_boundary` computes `(n1, n2)` by the
walk the claim describes — `n1` from the last element of `in_objects` when
the hit is reached (1.0 if empty), removal-or-append of the hit's object,
`n2` from the new last element — with membership in `in_objects` decided by
the shapes' `PartialEq`, i.e. equality of their Debug representations, so
two distinct but structurally equal shapes are identified rather than
tracked separately. -/
theorem compute_refraction_boundary_matches_walk :
    ∀ (hits : List Intersect) (idx : Nat), idx < hits.length →
      compute_refraction_boundary hits idx [] =
        refraction_boundary_foldl hits idx := by
  intro hits idx h
  rw [refraction_boundary_foldl]
  exact compute_refraction_boundary_eq_foldl hits idx [] h

/-- Witness for the amended C2 at the register of the source test
`refractive_indices_at_various_intersections` shape (four intersections,
hit index 2). -/
theorem compute_refraction_boundary_matches_walk_witness :
    2 < ([⟨1, ⟨0, 7, 2⟩, none, []⟩, ⟨2, ⟨1, 7, 2⟩, none, []⟩,
        ⟨3, ⟨0, 7, 2⟩, none, []⟩,
        (⟨4, ⟨1, 7, 2⟩, none, []⟩ : Intersect)] : List Intersect).length ∧
      compute_refraction_boundary
          [⟨1, ⟨0, 7, 2⟩, none, []⟩, ⟨2, ⟨1, 7, 2⟩, none, []⟩,
            ⟨3, ⟨0, 7, 2⟩, none, []⟩, ⟨4, ⟨1, 7, 2⟩, none, []⟩] 2 [] =
        refraction_boundary_foldl
          [⟨1, ⟨0, 7, 2⟩, none, []⟩, ⟨2, ⟨1, 7, 2⟩, none, []⟩,
            ⟨3, ⟨0, 7, 2⟩, none, []⟩, ⟨4, ⟨1, 7, 2⟩, none, []⟩] 2 :=
  ⟨by decide,
    compute_refraction_boundary_matches_walk _ 2 (by decide)⟩

/-- Counterexample to C2 as stated. Two distinct but structurally equal
shapes (same Debug representation `dbg = 7`, same refractive index 2, but
different references `oid = 0` and `oid = 1`) each entered once before the
visible hit at index 2. The source walk compares Debug representations, so
the second shape's entry removes the first shape from `in_objects` and the
boundary is `(1, 2)`; tracking by object identity as the claim states would
keep both and give `(2, 2)`. -/
theorem compute_refraction_boundary_identity_counterexample :
    compute_refraction_boundary
        [⟨1, ⟨0, 7, 2⟩, none, []⟩, ⟨2, ⟨1, 7, 2⟩, none, []⟩,
          ⟨3, ⟨0, 7, 2⟩, none, []⟩, ⟨4, ⟨1, 7, 2⟩, none, []⟩] 2 [] ≠
      refraction_boundary_by_identity
        [⟨1, ⟨0, 7, 2⟩, none, []⟩, ⟨2, ⟨1, 7, 2⟩, none, []⟩,
          ⟨3, ⟨0, 7, 2⟩, none, []⟩, ⟨4, ⟨1, 7, 2⟩, none, []⟩] 2 := by
  decide

/-! ### CSG evaluation (C4) (src/src/objects/csg.rs) -/

/-- CSG operation, `CsgOperation` (`src/src/objects/csg.rs`). -/
inductive CsgOperation where
  | Union
  | Intersect
  | Difference
  deriving DecidableEq, Repr

/-- Shape tree, `Shape ∈ {Primitive, Group, CSG}` (spec §3;
`src/src/objects/shapes/shape.rs` carries the `Primitive`/`Group` variants,
`src/src/objects/csg.rs` the CSG node). A primitive owns its frame
transformation (abstracted as an identifier) and is seen through its
`PrimShapeRef`; its `local_intersect` results for the cast ray are
abstracted as the `coords` data (`t` plus optional `uv`), since no claim
settled here depends on the primitive geometry. -/
inductive Shape where
  | prim (frame : Nat) (object : PrimShapeRef)
      (coords : List (ℚ × Option (ℚ × ℚ)))
  | group (frame : Nat) (children : List Shape)
  | csg (op : CsgOperation) (lshape rshape : Shape)

mutual

/-- Modelled from the spec: the `contains` test used by
`Csg::evaluate_intersections` (`self.lshape().contains(hit.object())`) is
referenced by `src/src/objects/csg.rs` but its definition is not in the
sources; spec §4.8 describes it as a test whether the intersected object is
a descendant of the subtree, "recursively inspecting groups/CSGs". At a
primitive leaf the codebase's shape comparison (`PartialEq`, Debug-string
equality) applies. -/
def containsObj : Shape → PrimShapeRef → Bool
  | .prim _ p _, o => primShapeEq p o
  | .group _ cs, o => containsObjList cs o
  | .csg _ l r, o => containsObj l o || containsObj r o

/-- Descendant test over a list of children (helper of `containsObj`). -/
def containsObjList : List Shape → PrimShapeRef → Bool
  | [], _ => false
  | c :: cs, o => containsObj c o || containsObjList cs o

end

/-- Union keep rule, `Csg::union_evaluate_intersection`
(`src/src/objects/csg.rs`, lines 77-79). -/
def union_evaluate_intersection (left_hit in_left in_right : Bool) : Bool :=
  (left_hit && !in_right) || (!left_hit && !in_left)

/-- Intersect keep rule, `Csg::intersect_evaluate_intersection`
(`src/src/objects/csg.rs`, lines 81-83). -/
def intersect_evaluate_intersection (left_hit in_left in_right : Bool) : Bool :=
  (left_hit && in_right) || (!left_hit && in_left)

/-- Difference keep rule, `Csg::difference_evaluate_intersection`
(`src/src/objects/csg.rs`, lines 85-87). -/
def difference_evaluate_intersection (left_hit in_left in_right : Bool) : Bool :=
  (left_hit && !in_right) || (!left_hit && in_left)

/-- Evaluator dispatch, the `match self.csg_operation` of
`Csg::evaluate_intersections`. -/
def intersection_evaluator : CsgOperation → Bool → Bool → Bool → Bool
  | .Union => union_evaluate_intersection
  | .Intersect => intersect_evaluate_intersection
  | .Difference => difference_evaluate_intersection

/-- Modelled from the spec: `HitRegister::expose`, called by
`Csg::evaluate_intersections` but absent from the sources. Per spec §4.8 the
CSG evaluates the combined intersections "in sorted-by-t order", and the
source test `intersections_with_csg` (t values 4, 6, 4.5, 6.5 in insertion
order, filtered result 4 and 6.5) pins the sort down; so `expose` yields the
register's intersections sorted by `t` ascending. -/
def expose (reg : List Intersect) : List Intersect :=
  sort_intersections_by_t reg

/-- Loop of `Csg::evaluate_intersections` (`src/src/objects/csg.rs`, lines
60-72): walk the exposed hits maintaining `in_left`/`in_right`, keep a hit
when the operation's evaluator says so, and flip `in_left` when the hit's
object is contained in the left subtree, `in_right` otherwise. -/
def evaluate_go (lsh : Shape) (op : CsgOperation) :
    List Intersect → Bool → Bool → List Intersect
  | [], _, _ => []
  | hit :: rest, in_left, in_right =>
    let lhit := containsObj lsh hit.object
    let keep := intersection_evaluator op lhit in_left in_right
    let tail :=
      if lhit then evaluate_go lsh op rest (!in_left) in_right
      else evaluate_go lsh op rest in_left (!in_right)
    if keep then hit :: tail else tail

/-- CSG filter, `Csg::evaluate_intersections` (`src/src/objects/csg.rs`,
lines 43-75), parametrised by the left subtree `lsh` (the source reads it
from `self`): expose the combined register sorted by `t` and run the
evaluation loop from `in_left = in_right = false`. -/
def evaluate_intersections (lsh : Shape) (op : CsgOperation)
    (reg : List Intersect) : List Intersect :=
  evaluate_go lsh op (expose reg) false false

mutual

/-- Traversal, `Shape::intersect_ray` / `Intersectable` (spec §4.3,
`src/src/objects/shapes/shape.rs`): a primitive pushes its frame onto the
stack and records each `local_intersect` coordinate with the full stack
snapshot; a group pushes its frame and recurses into each child with the
extended stack (modelled from spec §4.3 — the group traversal of the new
protocol is referenced but not among the sources); a CSG recurses into both
children with the *same* stack (`Csg::intersect_ray`,
`src/src/objects/csg.rs`, lines 91-106) and filters the combined register. -/
def shape_intersect_ray (ray : Ray) : List Nat → Shape → List Intersect
  | stack, .prim frame obj coords =>
    coords.map (fun c => ⟨c.1, obj, c.2, stack ++ [frame]⟩)
  | stack, .group frame cs => group_intersect_rays ray (stack ++ [frame]) cs
  | stack, .csg op l r =>
    evaluate_intersections l op
      (shape_intersect_ray ray stack l ++ shape_intersect_ray ray stack r)

/-- Traversal of a group's children, each with a clone of the extended
stack. -/
def group_intersect_rays (ray : Ray) (stack : List Nat) :
    List Shape → List Intersect
  | [] => []
  | c :: cs =>
    shape_intersect_ray ray stack c ++ group_intersect_rays ray stack cs

end

/-- Declarative reading of the CSG evaluation loop: a hit is kept according
to the operation's truth table applied to `left_hit` and to the parities of
the numbers of left-subtree and right-subtree hits among the already
processed intersections (each processed hit flips exactly one of the two
booleans). -/
def evaluate_spec (lsh : Shape) (op : CsgOperation) :
    List Intersect → List Intersect → List Intersect
  | [], _ => []
  | hit :: rest, processed =>
    let lhit := containsObj lsh hit.object
    let in_left :=
      (processed.countP (fun x => containsObj lsh x.object)).bodd
    let in_right :=
      (processed.countP (fun x => !containsObj lsh x.object)).bodd
    (if intersection_evaluator op lhit in_left in_right then [hit] else []) ++
      evaluate_spec lsh op rest (processed ++ [hit])

lemma evaluate_go_eq_spec (lsh : Shape) (op : CsgOperation) :
    ∀ (hits processed : List Intersect),
      evaluate_go lsh op hits
          ((processed.countP (fun x => containsObj lsh x.object)).bodd)
          ((processed.countP (fun x => !containsObj lsh x.object)).bodd) =
        evaluate_spec lsh op hits processed := by
  intro hits
  induction hits with
  | nil => intro processed; rfl
  | cons hit rest ih =>
    intro processed
    have hstep := ih (processed ++ [hit])
    rw [evaluate_go, evaluate_spec]
    cases hc : containsObj lsh hit.object
    · have hcl : (processed ++ [hit]).countP
          (fun x => containsObj lsh x.object) =
          processed.countP (fun x => containsObj lsh x.object) := by
        simp [List.countP_append, List.countP_cons, hc]
      have hcr : (processed ++ [hit]).countP
          (fun x => !containsObj lsh x.object) =
          processed.countP (fun x => !containsObj lsh x.object) + 1 := by
        simp [List.countP_append, List.countP_cons, hc]
      rw [hcl, hcr, Nat.bodd_succ] at hstep
      simp only [hc, Bool.false_eq_true, if_false]
      rw [hstep]
      split <;> simp
    · have hcl : (processed ++ [hit]).countP
          (fun x => containsObj lsh x.object) =
          processed.countP (fun x => containsObj lsh x.object) + 1 := by
        simp [List.countP_append, List.countP_cons, hc]
      have hcr : (processed ++ [hit]).countP
          (fun x => !containsObj lsh x.object) =
          processed.countP (fun x => !containsObj lsh x.object) := by
        simp [List.countP_append, List.countP_cons, hc]
      rw [hcl, hcr, Nat.bodd_succ] at hstep
      simp only [hc, if_true]
      rw [hstep]
      split <;> simp

/-- C4. The CSG node gathers the hit registers of both children with the
shared outer transform stack and filters their combination; the filter
walks the combined intersections in sorted-by-t order (the exposed list is
sorted by `t` and a permutation of the register); each intersection is kept
exactly according to the operation's truth table applied to `left_hit` and
the parities of previously seen left/right hits (the flip discipline); and
the three evaluators realise the claimed truth tables at all 8 assignments
of `(left_hit, in_left, in_right)`. -/
theorem csg_evaluation_shared_stack_sorted_tables :
    (∀ (op : CsgOperation) (l r : Shape) (ray : Ray) (stack : List Nat),
      shape_intersect_ray ray stack (.csg op l r) =
        evaluate_intersections l op
          (shape_intersect_ray ray stack l ++
            shape_intersect_ray ray stack r)) ∧
    (∀ reg : List Intersect,
      List.Sorted tLe (expose reg) ∧ (expose reg).Perm reg) ∧
    (∀ (lsh : Shape) (op : CsgOperation) (reg : List Intersect),
      evaluate_intersections lsh op reg =
        evaluate_spec lsh op (expose reg) []) ∧
    (∀ left_hit in_left in_right : Bool,
      (union_evaluate_intersection left_hit in_left in_right =
        ((left_hit && !in_right) || (!left_hit && !in_left))) ∧
      (intersect_evaluate_intersection left_hit in_left in_right =
        ((left_hit && in_right) || (!left_hit && in_left))) ∧
      (difference_evaluate_intersection left_hit in_left in_right =
        ((left_hit && !in_right) || (!left_hit && in_left)))) := by
  refine ⟨fun op l r ray stack => rfl, ?_, ?_, by decide⟩
  · intro reg
    exact ⟨List.sorted_insertionSort tLe reg, List.perm_insertionSort tLe reg⟩
  · intro lsh op reg
    have h := evaluate_go_eq_spec lsh op (expose reg) []
    simpa [evaluate_intersections] using h

/-! ### Recursive shading (C3) (src/src/scenes/world.rs) -/

/-- Data of the visible computed intersection inspected by the recursive
shading pipeline of `World::shade_ray`: the summed per-light Phong surface
colour (`World::shade_surface`, which casts only non-recursive shadow rays),
the hit material's `reflectance` and `transparency`, the refraction
boundary, eye vector, normal, reflected ray and under point
(`Intersect<_, Computed>` getters). -/
structure ShadeData where
  surface : Colour
  reflectance : ℚ
  transparency : ℚ
  refraction_boundary : ℚ × ℚ
  eyev : Vector
  normal : Vector
  reflected_ray : Ray
  under_point : Point

/-- World as the shading recursion sees it: `intersect_ray` followed by
`finalise_hit` (`World::shade_ray`, lines 26-28), abstracted as a function
from the cast ray to the visible hit's data. -/
structure WorldModel where
  finalise : Ray → Option ShadeData

/-- Recursion bound, `World::MAX_RAYCAST_DEPTH`
(`src/src/scenes/world.rs`, line 11): `const MAX_RAYCAST_DEPTH: i32 = 10`.
The `i32` depth only ever takes the values 10 down to 0, so it is embedded
as a `Nat`. -/
def MAX_RAYCAST_DEPTH : Nat := 10

/-- Tail of the Schlick approximation (`r0` and the fifth-power term),
`Intersect::schlick_reflectance` (`src/src/objects/intersections.rs`,
lines 278-279). -/
def schlick_r0_tail (n1 n2 c : ℚ) : ℚ :=
  ((n1 - n2) / (n1 + n2)) ^ 2 +
    (1 - ((n1 - n2) / (n1 + n2)) ^ 2) * (1 - c) ^ 5

/-- Schlick reflectance, `Intersect::schlick_reflectance`
(`src/src/objects/intersections.rs`, lines 262-280): when `n1 > n2` the
cosine is replaced by `cos_t` (returning 1 under total internal
reflection). -/
def schlick_reflectance (hit : ShadeData) : ℚ :=
  let nb := hit.refraction_boundary
  let cos0 := hit.eyev.dot hit.normal
  if nb.1 > nb.2 then
    let n := nb.1 / nb.2
    let sin2_t := n ^ 2 * (1 - cos0 ^ 2)
    if sin2_t > 1 then 1
    else schlick_r0_tail nb.1 nb.2 (ratSqrt (1 - sin2_t))
  else schlick_r0_tail nb.1 nb.2 cos0

/-- Squared transmitted sine, the `sin2_t` of `World::shade_refraction`
(`src/src/scenes/world.rs`, lines 127-131). -/
def refraction_sin2_t (hit : ShadeData) : ℚ :=
  (hit.refraction_boundary.1 / hit.refraction_boundary.2) ^ 2 *
    (1 - (hit.eyev.dot hit.normal) ^ 2)

/-- Refracted ray, `World::shade_refraction`
(`src/src/scenes/world.rs`, lines 137-140): direction
`normal * (n_ratio * cos_i - cos_t) - eyev * n_ratio`, origin the under
point. -/
def refracted_ray (hit : ShadeData) : Ray :=
  let n_ratio := hit.refraction_boundary.1 / hit.refraction_boundary.2
  let cos_i := hit.eyev.dot hit.normal
  let cos_t := ratSqrt (1 - refraction_sin2_t hit)
  ⟨hit.under_point, hit.normal * (n_ratio * cos_i - cos_t) - hit.eyev * n_ratio⟩

/-- Recursive shading, `World::shade_ray` (`src/src/scenes/world.rs`, lines
21-43) with the bodies of `shade_reflection` and `shade_refraction` (lines
93-143) inlined at their call sites: at remaining depth 0 the result is
black; otherwise the visible hit is finalised (black when there is none),
the reflected and refracted contributions recurse at depth one less (their
own `depth_remaining == 0` guards are never taken at these call sites since
the remaining depth here is positive), and the contributions are mixed by
Schlick when both `reflectance` and `transparency` are positive. -/
def shade_ray (w : WorldModel) : Nat → Ray → Colour
  | 0, _ => ⟨0, 0, 0⟩
  | d + 1, ray =>
    match w.finalise ray with
    | none => ⟨0, 0, 0⟩
    | some hit =>
      let surface := hit.surface
      let reflected :=
        if hit.reflectance = 0 then (⟨0, 0, 0⟩ : Colour)
        else hit.reflectance * shade_ray w d hit.reflected_ray
      let refracted :=
        if hit.transparency = 0 then (⟨0, 0, 0⟩ : Colour)
        else if refraction_sin2_t hit > 1 then (⟨0, 0, 0⟩ : Colour)
        else hit.transparency * shade_ray w d (refracted_ray hit)
      if hit.reflectance > 0 ∧ hit.transparency > 0 then
        let r := schlick_reflectance hit
        surface + reflected * r + refracted * (1 - r)
      else surface + reflected + refracted

/-- Reflected contribution, `World::shade_reflection`
(`src/src/scenes/world.rs`, lines 93-110): black at remaining depth 0 or
for a non-reflective material, else `reflectance` times the shading of the
reflected ray at depth one less. -/
def shade_reflection (w : WorldModel) (hit : ShadeData) (depth : Nat) :
    Colour :=
  if depth = 0 then ⟨0, 0, 0⟩
  else if hit.reflectance = 0 then ⟨0, 0, 0⟩
  else hit.reflectance * shade_ray w (depth - 1) hit.reflected_ray

/-- Refracted contribution, `World::shade_refraction`
(`src/src/scenes/world.rs`, lines 112-143): black at remaining depth 0, for
an opaque material, or under total internal reflection, else `transparency`
times the shading of the refracted ray at depth one less. -/
def shade_refraction (w : WorldModel) (hit : ShadeData) (depth : Nat) :
    Colour :=
  if depth = 0 then ⟨0, 0, 0⟩
  else if hit.transparency = 0 then ⟨0, 0, 0⟩
  else if refraction_sin2_t hit > 1 then ⟨0, 0, 0⟩
  else hit.transparency * shade_ray w (depth - 1) (refracted_ray hit)

/-- Entry point, `World::cast_ray` (`src/src/scenes/world.rs`, lines
17-19): start the recursive shading at `MAX_RAYCAST_DEPTH`. -/
def cast_ray (w : WorldModel) (ray : Ray) : Colour :=
  shade_ray w MAX_RAYCAST_DEPTH ray

/-- C3 (amended). `cast_ray` starts the recursive shading with remaining
depth `MAX_RAYCAST_DEPTH = 10`; a shading call with remaining depth 0
returns black, as do the reflection and refraction contributions; and at
positive remaining depth the reflected and refracted sub-rays are shaded
with the remaining depth decreased by one, so the recursion terminates
(witnessed by `shade_ray` being a total structural recursion on the
depth). -/
theorem cast_ray_recursion_depth_bound :
    MAX_RAYCAST_DEPTH = 10 ∧
    (∀ (w : WorldModel) (ray : Ray),
      cast_ray w ray = shade_ray w MAX_RAYCAST_DEPTH ray) ∧
    (∀ (w : WorldModel) (ray : Ray), shade_ray w 0 ray = ⟨0, 0, 0⟩) ∧
    (∀ (w : WorldModel) (hit : ShadeData),
      shade_reflection w hit 0 = ⟨0, 0, 0⟩ ∧
        shade_refraction w hit 0 = ⟨0, 0, 0⟩) ∧
    (∀ (w : WorldModel) (hit : ShadeData) (d : Nat),
      shade_reflection w hit (d + 1) =
        (if hit.reflectance = 0 then (⟨0, 0, 0⟩ : Colour)
         else hit.reflectance * shade_ray w d hit.reflected_ray) ∧
      shade_refraction w hit (d + 1) =
        (if hit.transparency = 0 then (⟨0, 0, 0⟩ : Colour)
         else if refraction_sin2_t hit > 1 then (⟨0, 0, 0⟩ : Colour)
         else hit.transparency * shade_ray w d (refracted_ray hit))) ∧
    (∀ (w : WorldModel) (ray : Ray) (d : Nat),
      w.finalise ray = none → shade_ray w (d + 1) ray = ⟨0, 0, 0⟩) ∧
    (∀ (w : WorldModel) (ray : Ray) (d : Nat) (hit : ShadeData),
      w.finalise ray = some hit →
        shade_ray w (d + 1) ray =
          (if hit.reflectance > 0 ∧ hit.transparency > 0 then
            hit.surface +
              shade_reflection w hit (d + 1) * schlick_reflectance hit +
              shade_refraction w hit (d + 1) * (1 - schlick_reflectance hit)
          else
            hit.surface + shade_reflection w hit (d + 1) +
              shade_refraction w hit (d + 1))) := by
  refine ⟨rfl, fun _ _ => rfl, fun _ _ => rfl, fun _ _ => ⟨rfl, rfl⟩,
    fun w hit d => ⟨rfl, rfl⟩, ?_, ?_⟩
  · intro w ray d hnone
    rw [shade_ray, hnone]
  · intro w ray d hit hsome
    rw [shade_ray, hsome]
    simp only [shade_reflection, shade_refraction, Nat.succ_ne_zero,
      if_false, Nat.add_sub_cancel]

/-- Example hit for the C3 witness: half reflective, half transparent. -/
def exampleHit : ShadeData :=
  ⟨⟨1, 1, 1⟩, 1 / 2, 1 / 2, (1, 1), ⟨0, 0, -1⟩, ⟨0, 0, -1⟩,
    ⟨⟨0, 0, 0⟩, ⟨0, 0, -1⟩⟩, ⟨0, 0, 0⟩⟩

/-- Example world for the C3 witness: every ray finalises to `exampleHit`. -/
def exampleWorldHit : WorldModel := ⟨fun _ => some exampleHit⟩

/-- Example world for the C3 witness: no ray finds a hit. -/
def exampleWorldMiss : WorldModel := ⟨fun _ => none⟩

/-- Example ray for the C3 witness. -/
def exampleRay : Ray := ⟨⟨0, 0, 0⟩, ⟨0, 0, 1⟩⟩

/-- Witness for C3: the depth-recursion equations applied at depth 3 + 1 to
a world whose finaliser yields a fixed reflective-and-transparent hit, and
to a world that finds no hit. -/
theorem cast_ray_recursion_depth_bound_witness :
    exampleWorldMiss.finalise exampleRay = none ∧
    exampleWorldHit.finalise exampleRay = some exampleHit ∧
    shade_ray exampleWorldMiss (3 + 1) exampleRay = ⟨0, 0, 0⟩ ∧
    shade_ray exampleWorldHit (3 + 1) exampleRay =
      (if exampleHit.reflectance > 0 ∧ exampleHit.transparency > 0 then
        exampleHit.surface +
          shade_reflection exampleWorldHit exampleHit (3 + 1) *
            schlick_reflectance exampleHit +
          shade_refraction exampleWorldHit exampleHit (3 + 1) *
            (1 - schlick_reflectance exampleHit)
      else
        exampleHit.surface +
          shade_reflection exampleWorldHit exampleHit (3 + 1) +
          shade_refraction exampleWorldHit exampleHit (3 + 1)) := by
  refine ⟨rfl, rfl, ?_, ?_⟩
  · exact cast_ray_recursion_depth_bound.2.2.2.2.2.1 exampleWorldMiss
      exampleRay 3 rfl
  · exact cast_ray_recursion_depth_bound.2.2.2.2.2.2 exampleWorldHit
      exampleRay 3 exampleHit rfl

/-- Counterexample to C3 as stated: the initial raycast depth constant in
`src/src/scenes/world.rs` is 10, not 5. -/
theorem max_raycast_depth_not_five : MAX_RAYCAST_DEPTH ≠ 5 := by decide

/-! ### Matrices and transforms (C7)
(src/src/collections/matrix.rs, src/src/transform.rs) -/

/-- The 4×4 matrix of `src/src/collections/matrix.rs` (the source `Matrix`
is a dynamically sized table; every matrix a `Transform` wraps is 4×4, which
is the shape the claim is about, so the embedding fixes the dimension).
Field `aRC` is entry `[[R, C]]`. -/
structure Mat4 where
  a00 : ℚ
  a01 : ℚ
  a02 : ℚ
  a03 : ℚ
  a10 : ℚ
  a11 : ℚ
  a12 : ℚ
  a13 : ℚ
  a20 : ℚ
  a21 : ℚ
  a22 : ℚ
  a23 : ℚ
  a30 : ℚ
  a31 : ℚ
  a32 : ℚ
  a33 : ℚ
  deriving DecidableEq, Repr

/-- Homogeneous 4-component column (the `Tuple4` of the sources: a point has
`w = 1`, a vector `w = 0`). -/
structure Tuple4 where
  x : ℚ
  y : ℚ
  z : ℚ
  w : ℚ
  deriving DecidableEq, Repr

/-- Determinant of a 3×3 matrix by cofactor expansion along the first row,
the `rows == 3` unfolding of `Matrix::det`/`Matrix::cofactor`
(`src/src/collections/matrix.rs`, lines 109-150). -/
def det3 (b00 b01 b02 b10 b11 b12 b20 b21 b22 : ℚ) : ℚ :=
  b00 * (b11 * b22 - b12 * b21) - b01 * (b10 * b22 - b12 * b20) +
    b02 * (b10 * b21 - b11 * b20)

/-- Signed cofactor `Matrix::cofactor([0,0])` of a 4×4 matrix. -/
def cof00 (M : Mat4) : ℚ :=
  det3 M.a11 M.a12 M.a13 M.a21 M.a22 M.a23 M.a31 M.a32 M.a33

/-- Signed cofactor `[0,1]`. -/
def cof01 (M : Mat4) : ℚ :=
  -det3 M.a10 M.a12 M.a13 M.a20 M.a22 M.a23 M.a30 M.a32 M.a33

/-- Signed cofactor `[0,2]`. -/
def cof02 (M : Mat4) : ℚ :=
  det3 M.a10 M.a11 M.a13 M.a20 M.a21 M.a23 M.a30 M.a31 M.a33

/-- Signed cofactor `[0,3]`. -/
def cof03 (M : Mat4) : ℚ :=
  -det3 M.a10 M.a11 M.a12 M.a20 M.a21 M.a22 M.a30 M.a31 M.a32

/-- Signed cofactor `[1,0]`. -/
def cof10 (M : Mat4) : ℚ :=
  -det3 M.a01 M.a02 M.a03 M.a21 M.a22 M.a23 M.a31 M.a32 M.a33

/-- Signed cofactor `[1,1]`. -/
def cof11 (M : Mat4) : ℚ :=
  det3 M.a00 M.a02 M.a03 M.a20 M.a22 M.a23 M.a30 M.a32 M.a33

/-- Signed cofactor `[1,2]`. -/
def cof12 (M : Mat4) : ℚ :=
  -det3 M.a00 M.a01 M.a03 M.a20 M.a21 M.a23 M.a30 M.a31 M.a33

/-- Signed cofactor `[1,3]`. -/
def cof13 (M : Mat4) : ℚ :=
  det3 M.a00 M.a01 M.a02 M.a20 M.a21 M.a22 M.a30 M.a31 M.a32

/-- Signed cofactor `[2,0]`. -/
def cof20 (M : Mat4) : ℚ :=
  det3 M.a01 M.a02 M.a03 M.a11 M.a12 M.a13 M.a31 M.a32 M.a33

/-- Signed cofactor `[2,1]`. -/
def cof21 (M : Mat4) : ℚ :=
  -det3 M.a00 M.a02 M.a03 M.a10 M.a12 M.a13 M.a30 M.a32 M.a33

/-- Signed cofactor `[2,2]`. -/
def cof22 (M : Mat4) : ℚ :=
  det3 M.a00 M.a01 M.a03 M.a10 M.a11 M.a13 M.a30 M.a31 M.a33

/-- Signed cofactor `[2,3]`. -/
def cof23 (M : Mat4) : ℚ :=
  -det3 M.a00 M.a01 M.a02 M.a10 M.a11 M.a12 M.a30 M.a31 M.a32

/-- Signed cofactor `[3,0]`. -/
def cof30 (M : Mat4) : ℚ :=
  -det3 M.a01 M.a02 M.a03 M.a11 M.a12 M.a13 M.a21 M.a22 M.a23

/-- Signed cofactor `[3,1]`. -/
def cof31 (M : Mat4) : ℚ :=
  det3 M.a00 M.a02 M.a03 M.a10 M.a12 M.a13 M.a20 M.a22 M.a23

/-- Signed cofactor `[3,2]`. -/
def cof32 (M : Mat4) : ℚ :=
  -det3 M.a00 M.a01 M.a03 M.a10 M.a11 M.a13 M.a20 M.a21 M.a23

/-- Signed cofactor `[3,3]`. -/
def cof33 (M : Mat4) : ℚ :=
  det3 M.a00 M.a01 M.a02 M.a10 M.a11 M.a12 M.a20 M.a21 M.a22

/-- Determinant, `Matrix::det` (`src/src/collections/matrix.rs`, lines
109-122): expansion `Σ_i M[0][i] · cofactor([0, i])`. -/
def Mat4.det (M : Mat4) : ℚ :=
  M.a00 * cof00 M + M.a01 * cof01 M + M.a02 * cof02 M + M.a03 * cof03 M

/-- Entry computation of `Matrix::invert` (`src/src/collections/matrix.rs`,
lines 158-167): `inverse[[j, i]] = cofactor([i, j]) / det` (the implicit
transpose). -/
def Mat4.invertUnchecked (M : Mat4) : Mat4 :=
  let d := M.det
  ⟨cof00 M / d, cof10 M / d, cof20 M / d, cof30 M / d,
    cof01 M / d, cof11 M / d, cof21 M / d, cof31 M / d,
    cof02 M / d, cof12 M / d, cof22 M / d, cof32 M / d,
    cof03 M / d, cof13 M / d, cof23 M / d, cof33 M / d⟩

/-- Inversion, `Matrix::invert`: the source asserts `det ≠ 0` and panics on
a singular matrix (`assert_ne!(det, 0.0)`, line 156), modelled by `none`. -/
def Mat4.invert (M : Mat4) : Option Mat4 :=
  if M.det = 0 then none else some M.invertUnchecked

/-- Matrix product, `impl Mul<&Matrix> for Matrix`
(`src/src/collections/matrix.rs`, lines 69-84), at the 4×4 dimension. -/
def Mat4.mulMat (A B : Mat4) : Mat4 :=
  ⟨A.a00 * B.a00 + A.a01 * B.a10 + A.a02 * B.a20 + A.a03 * B.a30,
    A.a00 * B.a01 + A.a01 * B.a11 + A.a02 * B.a21 + A.a03 * B.a31,
    A.a00 * B.a02 + A.a01 * B.a12 + A.a02 * B.a22 + A.a03 * B.a32,
    A.a00 * B.a03 + A.a01 * B.a13 + A.a02 * B.a23 + A.a03 * B.a33,
    A.a10 * B.a00 + A.a11 * B.a10 + A.a12 * B.a20 + A.a13 * B.a30,
    A.a10 * B.a01 + A.a11 * B.a11 + A.a12 * B.a21 + A.a13 * B.a31,
    A.a10 * B.a02 + A.a11 * B.a12 + A.a12 * B.a22 + A.a13 * B.a32,
    A.a10 * B.a03 + A.a11 * B.a13 + A.a12 * B.a23 + A.a13 * B.a33,
    A.a20 * B.a00 + A.a21 * B.a10 + A.a22 * B.a20 + A.a23 * B.a30,
    A.a20 * B.a01 + A.a21 * B.a11 + A.a22 * B.a21 + A.a23 * B.a31,
    A.a20 * B.a02 + A.a21 * B.a12 + A.a22 * B.a22 + A.a23 * B.a32,
    A.a20 * B.a03 + A.a21 * B.a13 + A.a22 * B.a23 + A.a23 * B.a33,
    A.a30 * B.a00 + A.a31 * B.a10 + A.a32 * B.a20 + A.a33 * B.a30,
    A.a30 * B.a01 + A.a31 * B.a11 + A.a32 * B.a21 + A.a33 * B.a31,
    A.a30 * B.a02 + A.a31 * B.a12 + A.a32 * B.a22 + A.a33 * B.a32,
    A.a30 * B.a03 + A.a31 * B.a13 + A.a32 * B.a23 + A.a33 * B.a33⟩

/-- Matrix times homogeneous column (the 4×1 case of the matrix product,
used by the `Transformable` impl of `src/src/transform.rs`). -/
def Mat4.mulVec (M : Mat4) (v : Tuple4) : Tuple4 :=
  ⟨M.a00 * v.x + M.a01 * v.y + M.a02 * v.z + M.a03 * v.w,
    M.a10 * v.x + M.a11 * v.y + M.a12 * v.z + M.a13 * v.w,
    M.a20 * v.x + M.a21 * v.y + M.a22 * v.z + M.a23 * v.w,
    M.a30 * v.x + M.a31 * v.y + M.a32 * v.z + M.a33 * v.w⟩

/-- Application of a transform matrix to a point, the composite
`Point::from(transform * Matrix::from(point))` of `src/src/transform.rs`
(lines 173-177) with `src/src/collections/point.rs` (`Matrix::from(Point)`
is the column `(x, y, z, 1)`; `Point::from(Matrix)` reads rows 0-2). -/
def Mat4.applyPoint (M : Mat4) (p : Point) : Point :=
  let r := M.mulVec ⟨p.x, p.y, p.z, 1⟩
  ⟨r.x, r.y, r.z⟩

/-- Axis selector, `Axis` (`src/src/transform.rs`). -/
inductive Axis where
  | X
  | Y
  | Z
  deriving DecidableEq, Repr

/-- Rational stand-in for the `f64` cosine used by the rotation
constructors (a truncated series; the inversion claim depends only on the
entries of the assembled matrix, not on how closely they approximate the
real cosine). -/
def cosQ (θ : ℚ) : ℚ := 1 - θ ^ 2 / 2 + θ ^ 4 / 24 - θ ^ 6 / 720

/-- Rational stand-in for the `f64` sine used by the rotation
constructors. -/
def sinQ (θ : ℚ) : ℚ := θ - θ ^ 3 / 6 + θ ^ 5 / 120 - θ ^ 7 / 5040

/-- Transform primitives, `TransformKind` (`src/src/transform.rs`). The
`Angle` of `Rotate` is its value in radians (`angle.radians()` is what the
rotation constructors consume). -/
inductive TransformKind where
  | Identity
  | Translate (x y z : ℚ)
  | Scale (x y z : ℚ)
  | Reflect (axis : Axis)
  | Rotate (axis : Axis) (angle : ℚ)
  | Shear (x_y x_z y_x y_z z_x z_y : ℚ)

/-- Matrix of a transform primitive, `Transform::new` dispatching to the
constructors of `src/src/transform.rs` (lines 31-157): identity with the
kind's entries patched in. -/
def transform_kind_matrix : TransformKind → Mat4
  | .Identity => ⟨1, 0, 0, 0, 0, 1, 0, 0, 0, 0, 1, 0, 0, 0, 0, 1⟩
  | .Translate x y z => ⟨1, 0, 0, x, 0, 1, 0, y, 0, 0, 1, z, 0, 0, 0, 1⟩
  | .Scale x y z => ⟨x, 0, 0, 0, 0, y, 0, 0, 0, 0, z, 0, 0, 0, 0, 1⟩
  | .Reflect .X => ⟨-1, 0, 0, 0, 0, 1, 0, 0, 0, 0, 1, 0, 0, 0, 0, 1⟩
  | .Reflect .Y => ⟨1, 0, 0, 0, 0, -1, 0, 0, 0, 0, 1, 0, 0, 0, 0, 1⟩
  | .Reflect .Z => ⟨1, 0, 0, 0, 0, 1, 0, 0, 0, 0, -1, 0, 0, 0, 0, 1⟩
  | .Rotate .X θ =>
    ⟨1, 0, 0, 0, 0, cosQ θ, -sinQ θ, 0, 0, sinQ θ, cosQ θ, 0, 0, 0, 0, 1⟩
  | .Rotate .Y θ =>
    ⟨cosQ θ, 0, sinQ θ, 0, 0, 1, 0, 0, -sinQ θ, 0, cosQ θ, 0, 0, 0, 0, 1⟩
  | .Rotate .Z θ =>
    ⟨cosQ θ, -sinQ θ, 0, 0, sinQ θ, cosQ θ, 0, 0, 0, 0, 1, 0, 0, 0, 0, 1⟩
  | .Shear x_y x_z y_x y_z z_x z_y =>
    ⟨1, x_y, x_z, 0, y_x, 1, y_z, 0, z_x, z_y, 1, 0, 0, 0, 0, 1⟩

/-- A transform built from the primitives and their compositions,
`Transform::new` / `Transform::compose` / `Transform::from(Vec)`
(`src/src/transform.rs`). -/
inductive Transform where
  | new (kind : TransformKind)
  | compose (a b : Transform)

/-- The wrapped matrix: `transform_a.compose(transform_b)` applies `a` then
`b`, i.e. wraps `M_b · M_a` (`Transform::compose`, `src/src/transform.rs`,
lines 59-62). -/
def Transform.matrix : Transform → Mat4
  | .new kind => transform_kind_matrix kind
  | .compose a b => Mat4.mulMat b.matrix a.matrix

/-- Affine bottom row: every transform built from the primitives and their
compositions wraps a matrix whose last row is `(0, 0, 0, 1)`. -/
lemma transform_matrix_affine_row (T : Transform) :
    (T.matrix).a30 = 0 ∧ (T.matrix).a31 = 0 ∧ (T.matrix).a32 = 0 ∧
      (T.matrix).a33 = 1 := by
  induction T with
  | new kind =>
    cases kind with
    | Identity => exact ⟨rfl, rfl, rfl, rfl⟩
    | Translate x y z => exact ⟨rfl, rfl, rfl, rfl⟩
    | Scale x y z => exact ⟨rfl, rfl, rfl, rfl⟩
    | Reflect axis => cases axis <;> exact ⟨rfl, rfl, rfl, rfl⟩
    | Rotate axis θ => cases axis <;> exact ⟨rfl, rfl, rfl, rfl⟩
    | Shear x_y x_z y_x y_z z_x z_y => exact ⟨rfl, rfl, rfl, rfl⟩
  | compose a b iha ihb =>
    obtain ⟨ha0, ha1, ha2, ha3⟩ := iha
    obtain ⟨hb0, hb1, hb2, hb3⟩ := ihb
    refine ⟨?_, ?_, ?_, ?_⟩ <;>
      simp [Transform.matrix, Mat4.mulMat, ha0, ha1, ha2, ha3, hb0, hb1,
        hb2, hb3]

set_option maxHeartbeats 1000000 in
/-- Left-inverse property of the cofactor inverse: for a matrix with
nonzero determinant, applying the inverse after the matrix restores any
homogeneous column. -/
lemma invertUnchecked_mulVec (M : Mat4) (h : M.det ≠ 0) (v : Tuple4) :
    M.invertUnchecked.mulVec (M.mulVec v) = v := by
  obtain ⟨vx, vy, vz, vw⟩ := v
  simp only [Mat4.invertUnchecked, Mat4.mulVec, Tuple4.mk.injEq]
  refine ⟨?_, ?_, ?_, ?_⟩ <;>
    · field_simp
      simp only [Mat4.det, cof00, cof01, cof02, cof03, cof10, cof11, cof12,
        cof13, cof20, cof21, cof22, cof23, cof30, cof31, cof32, cof33, det3]
      ring

/-- C7 (amended). For every transform built from the primitives Identity,
Translate, Scale, Reflect, Rotate, Shear or their compositions whose matrix
has nonzero determinant (inversion of a singular matrix panics), applying
the transform to a point and then applying its inverse restores the point
exactly (which implies the claim's per-coordinate epsilon bound). -/
theorem transform_invert_roundtrip (T : Transform) (p : Point)
    (h : (T.matrix).det ≠ 0) :
    ∃ Minv, (T.matrix).invert = some Minv ∧
      Minv.applyPoint ((T.matrix).applyPoint p) = p := by
  refine ⟨(T.matrix).invertUnchecked, by rw [Mat4.invert, if_neg h], ?_⟩
  obtain ⟨haff0, haff1, haff2, haff3⟩ := transform_matrix_affine_row T
  obtain ⟨px, py, pz⟩ := p
  simp only [Mat4.applyPoint]
  have hroundtrip := invertUnchecked_mulVec (T.matrix) h ⟨px, py, pz, 1⟩
  set q := (T.matrix).mulVec ⟨px, py, pz, 1⟩ with hqdef
  have hw : q.w = 1 := by
    rw [hqdef]
    simp only [Mat4.mulVec]
    rw [haff0, haff1, haff2, haff3]
    ring
  obtain ⟨qx, qy, qz, qw⟩ := q
  have hw1 : qw = 1 := hw
  subst hw1
  rw [hroundtrip]

/-- Witness for C7 at the source test `invert_translation`: the translation
by `(5, -3, 2)` has determinant 1 and round-trips the point `(-3, 4, 5)`. -/
theorem transform_invert_roundtrip_witness :
    ((Transform.new (.Translate 5 (-3) 2)).matrix).det ≠ 0 ∧
      ∃ Minv, ((Transform.new (.Translate 5 (-3) 2)).matrix).invert =
          some Minv ∧
        Minv.applyPoint
            (((Transform.new (.Translate 5 (-3) 2)).matrix).applyPoint
              ⟨-3, 4, 5⟩) = ⟨-3, 4, 5⟩ := by
  have hdet : ((Transform.new (.Translate 5 (-3) 2)).matrix).det ≠ 0 := by
    norm_num [Transform.matrix, transform_kind_matrix, Mat4.det, cof00,
      cof01, cof02, cof03, det3]
  exact ⟨hdet, transform_invert_roundtrip _ ⟨-3, 4, 5⟩ hdet⟩

/-- Counterexample to C7 as stated: for the primitive `Scale(0, 0, 0)` the
wrapped matrix is singular, `Matrix::invert` panics
(`assert_ne!(det, 0.0)`), and no round-tripped point is produced at all —
the claim fails at the transform `Scale(0,0,0)` and the point `(1, 2, 3)`. -/
theorem transform_invert_roundtrip_counterexample :
    ¬ ∃ Minv, ((Transform.new (.Scale 0 0 0)).matrix).invert = some Minv ∧
        Minv.applyPoint
            (((Transform.new (.Scale 0 0 0)).matrix).applyPoint ⟨1, 2, 3⟩) =
          ⟨1, 2, 3⟩ := by
  rintro ⟨Minv, hinv, -⟩
  rw [Mat4.invert, if_pos (by
    norm_num [Transform.matrix, transform_kind_matrix, Mat4.det, cof00,
      cof01, cof02, cof03, det3])] at hinv
  cases hinv

/-! ### Canvas, painting and the PPM writer (C6, C8, C10)
(src/src/scenes/canvas.rs) -/

/-- Maximum channel value, `PIXEL_MAX` (`src/src/scenes/canvas.rs`). -/
def PIXEL_MAX : Nat := 255

/-- Canvas, `src/src/scenes/canvas.rs`: a size and a row-major pixel grid
(`Pixel` wraps a `Colour`, so pixels are stored as colours). -/
structure Canvas where
  width : Nat
  height : Nat
  pixels : List (List Colour)
  deriving DecidableEq, Repr

/-- Construction, `Canvas::new`: `height` rows of `width` black pixels. -/
def Canvas.new (width height : Nat) : Canvas :=
  ⟨width, height, List.replicate height (List.replicate width ⟨0, 0, 0⟩)⟩

/-- Outcome of a paint call: the source returns
`Result<(), WriteError::OutOfBounds>` and can also panic on a vector index
out of range; `panicked` models that panic. -/
inductive PaintResult where
  | ok (canvas : Canvas)
  | outOfBounds
  | panicked
  deriving DecidableEq, Repr

/-- Painting, `Canvas::paint_colour_replace` (`src/src/scenes/canvas.rs`,
lines 98-113): the guard returns `OutOfBounds` when
`column > width || row > height` (the source's literal `>` comparisons);
otherwise `self.pixels[row][column] = Pixel::new(colour)`, which panics when
an index is out of the vector's range. -/
def paint_colour_replace (c : Canvas) (column row : Nat) (colour : Colour) :
    PaintResult :=
  if column > c.width ∨ row > c.height then .outOfBounds
  else if hr : row < c.pixels.length then
    let theRow := c.pixels.get ⟨row, hr⟩
    if column < theRow.length then
      .ok ⟨c.width, c.height, c.pixels.set row (theRow.set column colour)⟩
    else .panicked
  else .panicked

/-- Painting, `Canvas::paint_colour_additive` (`src/src/scenes/canvas.rs`,
lines 115-130): same guard, but `self.pixels[row][column] += Pixel::new(colour)`
(pixel addition adds the colours). -/
def paint_colour_additive (c : Canvas) (column row : Nat) (colour : Colour) :
    PaintResult :=
  if column > c.width ∨ row > c.height then .outOfBounds
  else if hr : row < c.pixels.length then
    let theRow := c.pixels.get ⟨row, hr⟩
    if hc : column < theRow.length then
      .ok ⟨c.width, c.height,
        c.pixels.set row (theRow.set column (theRow.get ⟨column, hc⟩ + colour))⟩
    else .panicked
  else .panicked

/-- Pixel lookup by `[col, row]` (the `Index<[usize; 2]>` impl reads
`pixels[row][col]`), total via `Option`. -/
def pixelAt (c : Canvas) (column row : Nat) : Option Colour :=
  c.pixels[row]?.bind fun r => r[column]?

/-- Channel encoding shared by `Pixel::red`/`green`/`blue`
(`src/src/scenes/canvas.rs`, lines 24-47): values above 1 map to
`PIXEL_MAX`, values below 0 to 0, and otherwise
`(x * PIXEL_MAX as f64).round() as u64`. -/
def pixel_channel (x : ℚ) : Nat :=
  if x > 1 then PIXEL_MAX
  else if x < 0 then 0
  else (ratRound (x * (PIXEL_MAX : ℚ))).toNat

/-- Channel encoder `Pixel::red`. -/
def Pixel.red (p : Colour) : Nat := pixel_channel p.red

/-- Channel encoder `Pixel::green`. -/
def Pixel.green (p : Colour) : Nat := pixel_channel p.green

/-- Channel encoder `Pixel::blue`. -/
def Pixel.blue (p : Colour) : Nat := pixel_channel p.blue

/-- Decimal rendering of a channel value, the `cval.to_string()` of
`Canvas::write_to_ppm` (Rust `u64::to_string`), as its ASCII characters. -/
def natChars (n : Nat) : List Char :=
  if _h10 : n < 10 then [Nat.digitChar n]
  else natChars (n / 10) ++ [Nat.digitChar (n % 10)]
termination_by n
decreasing_by
  exact Nat.div_lt_self (by omega) (by omega)

/-- The `.trim()` applied to the row buffer before each `writeln`: drop
spaces at both ends (the buffer's tokens are digit runs separated by single
spaces, so only the trailing space is ever removed). -/
def trimChars (l : List Char) : List Char :=
  ((l.dropWhile (· = ' ')).reverse.dropWhile (· = ' ')).reverse

/-- One step of the line-wrap loop of `Canvas::write_to_ppm`
(`src/src/scenes/canvas.rs`, lines 144-151): when appending the next value
plus its trailing space would exceed 70 characters
(`row_buffer.len() + colour_value.len() + 1 > 70`), emit the current buffer
trimmed and start a fresh one; then append the value and a space. State is
(emitted lines, current row buffer). -/
def ppm_wrap_step (st : List (List Char) × List Char) (v : List Char) :
    List (List Char) × List Char :=
  let st' :=
    if st.2.length + v.length + 1 > 70 then (st.1 ++ [trimChars st.2], [])
    else st
  (st'.1, st'.2 ++ v ++ [' '])

/-- The lines emitted for one pixel row by `Canvas::write_to_ppm` (lines
137-154): the three channel strings of each pixel in order are fed to the
wrap loop, and the final `writeln!(buffer, "{}", row_buffer.trim())` closes
the row, so every row ends with an emitted line. -/
def row_lines (row : List Colour) : List (List Char) :=
  let st := (row.flatMap fun px =>
    [natChars (Pixel.red px), natChars (Pixel.green px),
      natChars (Pixel.blue px)]).foldl ppm_wrap_step ([], [])
  st.1 ++ [trimChars st.2]

/-- The lines of the PPM output, `Canvas::write_to_ppm` (lines 132-155):
the `P3` magic, the `width height` line, the `PIXEL_MAX` line, then the
wrapped pixel rows. -/
def ppm_lines (c : Canvas) : List (List Char) :=
  [['P', '3'], natChars c.width ++ [' '] ++ natChars c.height,
    natChars PIXEL_MAX] ++ c.pixels.flatMap row_lines

/-- The emitted byte stream: each line followed by the newline `writeln!`
appends. -/
def write_to_ppm (c : Canvas) : List Char :=
  (ppm_lines c).flatMap fun l => l ++ ['\n']

lemma trimChars_length_le (l : List Char) : (trimChars l).length ≤ l.length := by
  rw [trimChars, List.length_reverse]
  calc ((l.dropWhile (· = ' ')).reverse.dropWhile (· = ' ')).length
      ≤ (l.dropWhile (· = ' ')).reverse.length :=
        (List.dropWhile_sublist _).length_le
    _ = (l.dropWhile (· = ' ')).length := List.length_reverse _
    _ ≤ l.length := (List.dropWhile_sublist _).length_le

lemma natChars_length_le :
    ∀ (k n : Nat), 0 < k → n < 10 ^ k → (natChars n).length ≤ k := by
  intro k
  induction k with
  | zero => intro n h; cases h
  | succ k ih =>
    intro n _ hn
    rw [natChars]
    by_cases h10 : n < 10
    · rw [dif_pos h10]
      simp
    · rw [dif_neg h10]
      have hk : 0 < k := by
        by_contra hk0
        have : k = 0 := by omega
        subst this
        simp at hn
        omega
      have hdiv : n / 10 < 10 ^ k := by
        apply Nat.div_lt_of_lt_mul
        calc n < 10 ^ (k + 1) := hn
          _ = 10 * 10 ^ k := by ring
      have := ih (n / 10) hk hdiv
      rw [List.length_append]
      simp only [List.length_cons, List.length_nil]
      omega

lemma pixel_channel_le (x : ℚ) : pixel_channel x ≤ 255 := by
  rw [pixel_channel, PIXEL_MAX]
  by_cases h1 : x > 1
  · rw [if_pos h1]
  · rw [if_neg h1]
    by_cases h0 : x < 0
    · rw [if_pos h0]; omega
    · rw [if_neg h0]
      rw [Int.toNat_le]
      have hx1 : x ≤ 1 := not_lt.mp h1
      have hx0 : (0 : ℚ) ≤ x := not_lt.mp h0
      rw [ratRound, if_pos (by positivity)]
      push_cast
      have : ⌊x * (255 : ℚ) + 1 / 2⌋ < 256 := by
        rw [Int.floor_lt]
        push_cast
        nlinarith
      omega

lemma ppm_wrap_fold_bound :
    ∀ (values : List (List Char)) (acc : List (List Char)) (buf : List Char),
      (∀ v ∈ values, v.length ≤ 3) →
      (∀ l ∈ acc, l.length ≤ 70) → buf.length ≤ 70 →
      (∀ l ∈ (values.foldl ppm_wrap_step (acc, buf)).1, l.length ≤ 70) ∧
        (values.foldl ppm_wrap_step (acc, buf)).2.length ≤ 70 := by
  intro values
  induction values with
  | nil => intro acc buf _ hacc hbuf; exact ⟨hacc, hbuf⟩
  | cons v vs ih =>
    intro acc buf hval hacc hbuf
    rw [List.foldl_cons]
    have hv3 : v.length ≤ 3 := hval v (List.mem_cons_self _ _)
    have hvs : ∀ w ∈ vs, w.length ≤ 3 :=
      fun w hw => hval w (List.mem_cons_of_mem _ hw)
    by_cases hcond : buf.length + v.length + 1 > 70
    · have hstep : ppm_wrap_step (acc, buf) v =
          (acc ++ [trimChars buf], v ++ [' ']) := by
        rw [ppm_wrap_step]
        simp only [if_pos hcond, List.nil_append]
      rw [hstep]
      apply ih
      · exact hvs
      · intro l hl
        rcases List.mem_append.mp hl with hl | hl
        · exact hacc l hl
        · rcases List.mem_singleton.mp hl with rfl
          exact le_trans (trimChars_length_le buf) hbuf
      · rw [List.length_append]
        simp only [List.length_cons, List.length_nil]
        omega
    · have hstep : ppm_wrap_step (acc, buf) v =
          (acc, buf ++ v ++ [' ']) := by
        rw [ppm_wrap_step]
        simp only [if_neg hcond]
      rw [hstep]
      apply ih
      · exact hvs
      · exact hacc
      · rw [List.length_append, List.length_append]
        simp only [List.length_cons, List.length_nil]
        omega

lemma row_lines_bound (row : List Colour) :
    ∀ l ∈ row_lines row, l.length ≤ 70 := by
  intro l hl
  rw [row_lines] at hl
  have hval : ∀ v ∈ (row.flatMap fun px =>
      [natChars (Pixel.red px), natChars (Pixel.green px),
        natChars (Pixel.blue px)]), v.length ≤ 3 := by
    intro v hv
    rcases List.mem_flatMap.mp hv with ⟨px, _, hmem⟩
    have hch : ∀ m : Nat, m ≤ 255 → (natChars m).length ≤ 3 := by
      intro m hm
      exact natChars_length_le 3 m (by omega) (by omega)
    simp only [List.mem_cons, List.not_mem_nil, or_false] at hmem
    rcases hmem with rfl | rfl | rfl
    · exact hch _ (pixel_channel_le _)
    · exact hch _ (pixel_channel_le _)
    · exact hch _ (pixel_channel_le _)
  obtain ⟨hacc, hbuf⟩ := ppm_wrap_fold_bound _ [] [] hval
    (by intro l hl; cases hl) (by simp)
  rcases List.mem_append.mp hl with hl | hl
  · exact hacc l hl
  · rcases List.mem_singleton.mp hl with rfl
    exact le_trans (trimChars_length_le _) hbuf

lemma row_lines_ne_nil (row : List Colour) : row_lines row ≠ [] := by
  rw [row_lines]
  intro h
  exact absurd (List.append_eq_nil.mp h).2 (by simp)

/-- C8. The PPM writer encodes each channel as
`round(clamp(value, 0, 1) × 255)`; no emitted line exceeds 70 characters
(the wrap rule emits the current line trimmed of trailing spaces whenever
appending the next integer plus its trailing space would exceed 70); every
pixel row contributes at least one emitted line even after wrapping; and
the byte stream is exactly the emitted lines each terminated by a
newline. The `usize` canvas dimensions are bounded by `2^64`. -/
theorem write_to_ppm_clamped_encoding_and_line_bound (c : Canvas)
    (hw : c.width < 2 ^ 64) (hh : c.height < 2 ^ 64) :
    (∀ x : ℚ,
      pixel_channel x = (ratRound (max 0 (min 1 x) * (255 : ℚ))).toNat) ∧
    (∀ line ∈ ppm_lines c, line.length ≤ 70) ∧
    (∀ row, row_lines row ≠ []) ∧
    write_to_ppm c = (ppm_lines c).flatMap (fun l => l ++ ['\n']) := by
  refine ⟨?_, ?_, row_lines_ne_nil, rfl⟩
  · intro x
    rw [pixel_channel, PIXEL_MAX]
    push_cast
    by_cases h1 : x > 1
    · rw [if_pos h1, min_eq_left (le_of_lt h1), max_eq_right (by norm_num)]
      have : ratRound ((1 : ℚ) * 255) = 255 := by
        rw [ratRound, if_pos (by norm_num)]
        refine Int.floor_eq_iff.mpr ⟨by push_cast; norm_num,
          by push_cast; norm_num⟩
      rw [this]
      rfl
    · rw [if_neg h1]
      have hx1 : x ≤ 1 := not_lt.mp h1
      by_cases h0 : x < 0
      · rw [if_pos h0, min_eq_right hx1, max_eq_left (le_of_lt h0)]
        have : ratRound ((0 : ℚ) * 255) = 0 := by
          rw [ratRound, if_pos (by norm_num)]
          refine Int.floor_eq_iff.mpr ⟨by push_cast; norm_num,
            by push_cast; norm_num⟩
        rw [this]
        rfl
      · rw [if_neg h0, min_eq_right hx1, max_eq_right (not_lt.mp h0)]
  · intro line hl
    rw [ppm_lines] at hl
    have hbound20 : ∀ m : Nat, m < 2 ^ 64 → (natChars m).length ≤ 20 := by
      intro m hm
      exact natChars_length_le 20 m (by omega)
        (lt_trans hm (by norm_num))
    rcases List.mem_append.mp hl with hhead | hbody
    · simp only [List.mem_cons, List.not_mem_nil, or_false] at hhead
      rcases hhead with rfl | rfl | rfl
      · simp
      · rw [List.length_append, List.length_append]
        have h1 := hbound20 c.width hw
        have h2 := hbound20 c.height hh
        simp only [List.length_cons, List.length_nil]
        omega
      · have : (natChars PIXEL_MAX).length ≤ 3 :=
          natChars_length_le 3 PIXEL_MAX (by omega) (by rw [PIXEL_MAX]; omega)
        omega
    · rcases List.mem_flatMap.mp hbody with ⟨row, _, hmem⟩
      exact row_lines_bound row line hmem

/-- Witness for C8 at the 2×2 canvas of the source test
`write_ppm_small_canvas`. -/
theorem write_to_ppm_clamped_encoding_and_line_bound_witness :
    (Canvas.new 2 2).width < 2 ^ 64 ∧ (Canvas.new 2 2).height < 2 ^ 64 ∧
      ((∀ x : ℚ,
        pixel_channel x = (ratRound (max 0 (min 1 x) * (255 : ℚ))).toNat) ∧
      (∀ line ∈ ppm_lines (Canvas.new 2 2), line.length ≤ 70) ∧
      (∀ row, row_lines row ≠ []) ∧
      write_to_ppm (Canvas.new 2 2) =
        (ppm_lines (Canvas.new 2 2)).flatMap (fun l => l ++ ['\n'])) :=
  ⟨by decide, by decide,
    write_to_ppm_clamped_encoding_and_line_bound (Canvas.new 2 2)
      (by decide) (by decide)⟩

/-- C6, evaluated at the failing boundary input: on the 2×2 canvas the
claim requires `paint(2, 0, ·)` (column = width) to return the OutOfBounds
error, but the `>` guards of `paint_colour_replace` and
`paint_colour_additive` let the call through to `pixels[0][2]`, which
panics; one past the boundary (`column = 3 > width`) does return
OutOfBounds, and a strictly in-range paint succeeds. -/
theorem paint_boundary_column_panics :
    paint_colour_replace (Canvas.new 2 2) 2 0 ⟨1, 0, 0⟩ = .panicked ∧
    paint_colour_additive (Canvas.new 2 2) 2 0 ⟨1, 0, 0⟩ = .panicked ∧
    paint_colour_replace (Canvas.new 2 2) 0 2 ⟨1, 0, 0⟩ = .panicked ∧
    paint_colour_replace (Canvas.new 2 2) 3 0 ⟨1, 0, 0⟩ = .outOfBounds ∧
    paint_colour_replace (Canvas.new 2 2) 1 0 ⟨1, 0, 0⟩ =
      .ok ⟨2, 2, [[⟨0, 0, 0⟩, ⟨1, 0, 0⟩], [⟨0, 0, 0⟩, ⟨0, 0, 0⟩]]⟩ := by
  refine ⟨by decide, by decide, by decide, by decide, by decide⟩

/-- C10. Painting a strictly in-range position of a well-formed canvas
succeeds and changes only that pixel: the dimensions are unchanged, the
target pixel holds the painted colour (replace) or the sum (additive), and
every other position reads the same as before. -/
theorem paint_in_range_changes_only_target (c : Canvas) (column row : Nat)
    (colour : Colour) (hwf1 : c.pixels.length = c.height)
    (hwf2 : ∀ r ∈ c.pixels, r.length = c.width)
    (hcol : column < c.width) (hrow : row < c.height) :
    (∃ c', paint_colour_replace c column row colour = .ok c' ∧
      c'.width = c.width ∧ c'.height = c.height ∧
      pixelAt c' column row = some colour ∧
      ∀ col2 row2 : Nat, ¬(col2 = column ∧ row2 = row) →
        pixelAt c' col2 row2 = pixelAt c col2 row2) ∧
    (∃ c'', paint_colour_additive c column row colour = .ok c'' ∧
      c''.width = c.width ∧ c''.height = c.height ∧
      pixelAt c'' column row =
        (pixelAt c column row).map (fun p => p + colour) ∧
      ∀ col2 row2 : Nat, ¬(col2 = column ∧ row2 = row) →
        pixelAt c'' col2 row2 = pixelAt c col2 row2) := by
  have hguard : ¬(column > c.width ∨ row > c.height) := by
    push_neg
    exact ⟨le_of_lt hcol, le_of_lt hrow⟩
  have hr : row < c.pixels.length := by rw [hwf1]; exact hrow
  have hrowlen : (c.pixels.get ⟨row, hr⟩).length = c.width :=
    hwf2 _ (c.pixels.get_mem _ _)
  have hc : column < (c.pixels.get ⟨row, hr⟩).length := by
    rw [hrowlen]; exact hcol
  have hget : c.pixels[row]? = some (c.pixels.get ⟨row, hr⟩) := by
    rw [List.getElem?_eq_getElem hr]
    rfl
  have frame : ∀ newRow : List Colour, newRow.length = c.width →
      (∀ col2 : Nat, col2 ≠ column →
        newRow[col2]? = (c.pixels.get ⟨row, hr⟩)[col2]?) →
      ∀ col2 row2 : Nat, ¬(col2 = column ∧ row2 = row) →
        pixelAt ⟨c.width, c.height, c.pixels.set row newRow⟩ col2 row2 =
          pixelAt c col2 row2 := by
    intro newRow _ hnew col2 row2 hne
    rw [pixelAt, pixelAt]
    by_cases hrr : row = row2
    · subst hrr
      have hcc : col2 ≠ column := by
        intro hcc
        exact hne ⟨hcc, rfl⟩
      show (c.pixels.set row newRow)[row]?.bind _ = _
      rw [List.getElem?_set, if_pos rfl, if_pos hr, hget]
      simp only [Option.some_bind]
      exact hnew col2 hcc
    · show (c.pixels.set row newRow)[row2]?.bind _ = _
      rw [List.getElem?_set, if_neg hrr]
  have target : ∀ newRow : List Colour,
      pixelAt ⟨c.width, c.height, c.pixels.set row newRow⟩ column row =
        newRow[column]? := by
    intro newRow
    rw [pixelAt]
    show (c.pixels.set row newRow)[row]?.bind _ = _
    rw [List.getElem?_set, if_pos rfl, if_pos hr]
    simp only [Option.some_bind]
  constructor
  · refine ⟨⟨c.width, c.height,
      c.pixels.set row ((c.pixels.get ⟨row, hr⟩).set column colour)⟩,
      ?_, rfl, rfl, ?_, ?_⟩
    · rw [paint_colour_replace, if_neg hguard, dif_pos hr, if_pos hc]
    · rw [target]
      rw [List.getElem?_set, if_pos rfl, if_pos hc]
    · apply frame
      · rw [List.length_set, hrowlen]
      · intro col2 hcc
        rw [List.getElem?_set, if_neg (fun h => hcc h.symm)]
  · refine ⟨⟨c.width, c.height,
      c.pixels.set row ((c.pixels.get ⟨row, hr⟩).set column
        ((c.pixels.get ⟨row, hr⟩).get ⟨column, hc⟩ + colour))⟩,
      ?_, rfl, rfl, ?_, ?_⟩
    · rw [paint_colour_additive, if_neg hguard, dif_pos hr, dif_pos hc]
    · rw [target]
      rw [List.getElem?_set, if_pos rfl, if_pos hc]
      rw [pixelAt, hget]
      simp only [Option.some_bind]
      rw [List.getElem?_eq_getElem hc]
      rfl
    · apply frame
      · rw [List.length_set, hrowlen]
      · intro col2 hcc
        rw [List.getElem?_set, if_neg (fun h => hcc h.symm)]

/-- Witness for C10: painting `(0, 1)` on the 2×2 black canvas. -/
theorem paint_in_range_changes_only_target_witness :
    (Canvas.new 2 2).pixels.length = (Canvas.new 2 2).height ∧
    (∀ r ∈ (Canvas.new 2 2).pixels, r.length = (Canvas.new 2 2).width) ∧
    0 < (Canvas.new 2 2).width ∧ 1 < (Canvas.new 2 2).height ∧
    ((∃ c', paint_colour_replace (Canvas.new 2 2) 0 1 ⟨1, 0, 0⟩ = .ok c' ∧
      c'.width = (Canvas.new 2 2).width ∧
      c'.height = (Canvas.new 2 2).height ∧
      pixelAt c' 0 1 = some ⟨1, 0, 0⟩ ∧
      ∀ col2 row2 : Nat, ¬(col2 = 0 ∧ row2 = 1) →
        pixelAt c' col2 row2 = pixelAt (Canvas.new 2 2) col2 row2) ∧
    (∃ c'', paint_colour_additive (Canvas.new 2 2) 0 1 ⟨1, 0, 0⟩ = .ok c'' ∧
      c''.width = (Canvas.new 2 2).width ∧
      c''.height = (Canvas.new 2 2).height ∧
      pixelAt c'' 0 1 =
        (pixelAt (Canvas.new 2 2) 0 1).map (fun p => p + ⟨1, 0, 0⟩) ∧
      ∀ col2 row2 : Nat, ¬(col2 = 0 ∧ row2 = 1) →
        pixelAt c'' col2 row2 = pixelAt (Canvas.new 2 2) col2 row2)) :=
  ⟨by decide, by decide, by decide, by decide,
    paint_in_range_changes_only_target (Canvas.new 2 2) 0 1 ⟨1, 0, 0⟩
      (by decide) (by decide) (by decide) (by decide)⟩

/-! ### Channel encoders on the full f64 domain (C9) -/

/-- The `f64` values a colour channel can hold, including the non-finite
ones: NaN, the infinities, and finite values (idealised as rationals —
every finite `f64` is a rational, and the range claim only needs the
ordering of the finite values). -/
inductive F64 where
  | nan
  | inf
  | ninf
  | fin (q : ℚ)

/-- IEEE `>` against a finite constant, as used by the match guard
`x if x > 1.0`: false for NaN, true for `+∞`, false for `-∞`. -/
def fgt (x : F64) (c : ℚ) : Bool :=
  match x with
  | .nan => false
  | .inf => true
  | .ninf => false
  | .fin q => decide (q > c)

/-- IEEE `<` against a finite constant (`x if x < 0.0`): false for NaN and
`+∞`, true for `-∞`. -/
def flt (x : F64) (c : ℚ) : Bool :=
  match x with
  | .nan => false
  | .inf => false
  | .ninf => true
  | .fin q => decide (q < c)

/-- IEEE multiplication by the positive constant `PIXEL_MAX as f64`
(`x * 255.0`): NaN and the infinities propagate; finite products are exact
in the rational idealisation (`f64` rounding is monotone and cannot leave
`[0, 255]` for `x ∈ [0, 1]`, so the range claim is unaffected). -/
def fmul_const (x : F64) (c : Nat) : F64 :=
  match x with
  | .nan => .nan
  | .inf => .inf
  | .ninf => .ninf
  | .fin q => .fin (q * c)

/-- IEEE `f64::round` (half away from zero): NaN and infinities
propagate. -/
def fround : F64 → F64
  | .nan => .nan
  | .inf => .inf
  | .ninf => .ninf
  | .fin q => .fin ((ratRound q : ℤ) : ℚ)

/-- Largest `u64` value. -/
def u64MAX : Nat := 18446744073709551615

/-- Rust's saturating `as u64` cast on `f64`: NaN casts to 0, `-∞` and
negative values to 0, `+∞` and values beyond `u64::MAX` to `u64::MAX`,
and in-range finite values truncate toward zero. -/
def as_u64 (x : F64) : Nat :=
  match x with
  | .nan => 0
  | .inf => u64MAX
  | .ninf => 0
  | .fin q => if q < 0 then 0 else if (u64MAX : ℚ) < q then u64MAX else ⌊q⌋.toNat

/-- `Pixel::red`/`green`/`blue` (`src/src/scenes/canvas.rs`, lines 24-47)
over the full `f64` domain of the channel: the two match guards and the
final `(x * PIXEL_MAX as f64).round() as u64` arm. -/
def pixel_channel_f64 (x : F64) : Nat :=
  if fgt x 1 then PIXEL_MAX
  else if flt x 0 then 0
  else as_u64 (fround (fmul_const x PIXEL_MAX))

/-- C9. The channel encoders are total and always land in `[0, 255]` for
every `f64` input: values above 1 (including `+∞`) map to 255, values
below 0 (including `-∞`) map to 0, NaN maps to 0, and on finite values the
`f64` encoder coincides with the rational encoder used by the PPM writer —
no input panics or escapes the range. -/
theorem pixel_channel_total_and_in_range :
    (∀ x : F64, pixel_channel_f64 x ≤ 255) ∧
    pixel_channel_f64 .nan = 0 ∧
    pixel_channel_f64 .inf = 255 ∧
    pixel_channel_f64 .ninf = 0 ∧
    (∀ q : ℚ, 1 < q → pixel_channel_f64 (.fin q) = 255) ∧
    (∀ q : ℚ, q < 0 → pixel_channel_f64 (.fin q) = 0) ∧
    (∀ q : ℚ, pixel_channel_f64 (.fin q) = pixel_channel q) := by
  have hfin : ∀ q : ℚ, ¬q > 1 → ¬q < 0 →
      as_u64 (fround (fmul_const (.fin q) PIXEL_MAX)) =
        (ratRound (q * (PIXEL_MAX : ℚ))).toNat := by
    intro q h1 h0
    have hx1 : q ≤ 1 := not_lt.mp h1
    have hx0 : (0 : ℚ) ≤ q := not_lt.mp h0
    have hv0 : 0 ≤ ratRound (q * (PIXEL_MAX : ℚ)) := by
      rw [ratRound, if_pos (by positivity)]
      positivity
    have hv255 : ratRound (q * (PIXEL_MAX : ℚ)) ≤ 255 := by
      rw [ratRound, if_pos (by positivity)]
      have : ⌊q * ((PIXEL_MAX : ℕ) : ℚ) + 1 / 2⌋ < 256 := by
        rw [Int.floor_lt]
        rw [PIXEL_MAX]
        push_cast
        nlinarith
      omega
    rw [fmul_const, fround, as_u64]
    rw [if_neg (by exact not_lt.mpr (by exact_mod_cast hv0))]
    rw [if_neg (by
      refine not_lt.mpr ?_
      calc ((ratRound (q * (PIXEL_MAX : ℚ)) : ℤ) : ℚ) ≤ 255 := by
            exact_mod_cast hv255
        _ ≤ (u64MAX : ℚ) := by rw [u64MAX]; norm_num)]
    rw [Int.floor_intCast]
  have hrange : ∀ x : F64, pixel_channel_f64 x ≤ 255 := by
    intro x
    cases x with
    | nan => rw [pixel_channel_f64]; simp [fgt, flt, fmul_const, fround, as_u64]
    | inf => rw [pixel_channel_f64]; simp [fgt, PIXEL_MAX]
    | ninf => rw [pixel_channel_f64]; simp [fgt, flt]
    | fin q =>
      rw [pixel_channel_f64]
      by_cases h1 : q > 1
      · rw [if_pos (by simp [fgt, h1]), PIXEL_MAX]
      · rw [if_neg (by simp [fgt, h1])]
        by_cases h0 : q < 0
        · rw [if_pos (by simp [flt, h0])]; omega
        · rw [if_neg (by simp [flt, h0]), hfin q h1 h0]
          have hx1 : q ≤ 1 := not_lt.mp h1
          have hx0 : (0 : ℚ) ≤ q := not_lt.mp h0
          rw [Int.toNat_le, ratRound, if_pos (by positivity)]
          have : ⌊q * ((PIXEL_MAX : ℕ) : ℚ) + 1 / 2⌋ < 256 := by
            rw [Int.floor_lt]
            rw [PIXEL_MAX]
            push_cast
            nlinarith
          omega
  refine ⟨hrange, rfl, rfl, rfl, ?_, ?_, ?_⟩
  · intro q hq
    rw [pixel_channel_f64, if_pos (by simp [fgt, hq]), PIXEL_MAX]
  · intro q hq
    have h1 : ¬q > 1 := by intro h; exact absurd hq (not_lt.mpr (by linarith))
    rw [pixel_channel_f64, if_neg (by simp [fgt, h1]),
      if_pos (by simp [flt, hq])]
  · intro q
    rw [pixel_channel_f64, pixel_channel]
    by_cases h1 : q > 1
    · rw [if_pos (by simp [fgt, h1]), if_pos h1]
    · rw [if_neg (by simp [fgt, h1]), if_neg h1]
      by_cases h0 : q < 0
      · rw [if_pos (by simp [flt, h0]), if_pos h0]
      · rw [if_neg (by simp [flt, h0]), if_neg h0, hfin q h1 h0]

/-- Witness for C9: a channel of 2 encodes to 255, a channel of −1 to 0,
and NaN to 0. -/
theorem pixel_channel_total_and_in_range_witness :
    pixel_channel_f64 (.fin 2) = 255 ∧
    pixel_channel_f64 (.fin (-1)) = 0 ∧
    pixel_channel_f64 .nan = 0 :=
  ⟨pixel_channel_total_and_in_range.2.2.2.2.1 2 (by norm_num),
    pixel_channel_total_and_in_range.2.2.2.2.2.1 (-1) (by norm_num),
    pixel_channel_total_and_in_range.2.1⟩

end RayTracer
